import Mathlib

/-!
Shallow embedding of the RamSim environment (`src/ramsim/environment.py`):
a fixed table of `k` process slots, eight per-slot action handlers, a
stochastic dynamics pass, a spawn pass, telemetry aggregation and a
multi-objective reward.  Numeric values are modelled over `ℚ` (the Python
code computes in float32; all comparisons the claims depend on are exact
threshold tests).  Randomness is modelled as an explicit stream of rational
draws in `[0,1]` consumed in the same order as the `np.random` calls of the
source.  Note that the source draws from the *global* `np.random` module
state which out-lives any single environment instance; the stream therefore
threads through `reset`/`step` calls across instances as well.
-/

namespace RamSim

/-- `np.clip(x, lo, hi)`: `min (max x lo) hi`. -/
def clip (x lo hi : ℚ) : ℚ := min (max x lo) hi

/-- The global `np.random` generator state: an infinite stream of draws with
a cursor.  Each primitive call (`uniform`, `rand`, `randint`, `choice`,
one Fisher–Yates swap of `shuffle`) consumes one value. -/
structure RStream where
  vals : ℕ → ℚ
  pos : ℕ

/-- The stream plays the role of a uniform-[0,1) source: every draw lies in
the unit interval. -/
def RStream.Bounded (g : RStream) : Prop := ∀ n, 0 ≤ g.vals n ∧ g.vals n ≤ 1

/-- A random computation threading the generator state. -/
abbrev Rand (α : Type) := RStream → α × RStream

/-- Consume one raw draw from the stream (`np.random.rand()`). -/
def nextQ : Rand ℚ := fun g => (g.vals g.pos, ⟨g.vals, g.pos + 1⟩)

/-- `np.random.uniform(a, b)`. -/
def randUniform (a b : ℚ) : Rand ℚ := fun g =>
  let u := (nextQ g).1
  (a + (b - a) * u, (nextQ g).2)

/-- `np.random.randint(0, n)` for `n ≥ 1`: an integer in `[0, n-1]`.
(`n = 0` raises in numpy; callers guard that case explicitly.) -/
def randIntBelow (n : ℕ) : Rand ℕ := fun g =>
  let u := (nextQ g).1
  (min (Nat.floor (u * (n : ℚ))) (n - 1), (nextQ g).2)

/-- One row of the process table: `[RAM, CPU, Priority, State]` with the
state encoded as in the source (1 = Running, 0.6 = Suspended, 0.3 = Swapped,
0 = Killed). -/
structure ProcessRecord where
  ram : ℚ
  cpu : ℚ
  priority : ℚ
  state : ℚ
deriving DecidableEq, Repr

/-- The all-zero row `[0, 0, 0, 0]` used for killed slots and empty swap
backups. -/
def zeroRec : ProcessRecord := ⟨0, 0, 0, 0⟩

/-- The `system_stats` vector.  Modelled from the spec: the index constants
`RAM_USAGE_INDEX .. POWER_INDEX` live in `ramsim/utils/constants.py`, which
is not part of the sources at hand; §4.4/§6 of the design fix the order as
[ram_usage, cpu_usage, page_fault_rate, swap_usage, power], matching the
literal array construction in `_update_system_stats`. -/
structure SystemStats where
  ramUsage : ℚ
  cpuUsage : ℚ
  pageFault : ℚ
  swapUsage : ℚ
  power : ℚ
deriving DecidableEq, Repr

/-- `np.sum(self.process_table[:, 0])`. -/
def sumRam (t : List ProcessRecord) : ℚ := t.foldr (fun r acc => r.ram + acc) 0

/-- `np.sum(self.process_table[:, 1])`. -/
def sumCpu (t : List ProcessRecord) : ℚ := t.foldr (fun r acc => r.cpu + acc) 0

/-- `np.sum(priority * (state == 1.0))` of `_calculate_global_reward`. -/
def qosSum (t : List ProcessRecord) : ℚ :=
  t.foldr (fun r acc => (if r.state = 1 then r.priority else 0) + acc) 0

/-- `_update_system_stats` (the same formulas are inlined in `reset`).
`sigma` abstracts the float32 logistic `x ↦ 1/(1+exp(-(x-0.8)*10))` used for
the page-fault rate; it is transcendental, hence kept as a parameter — no
claim depends on its values. -/
def computeStats (sigma : ℚ → ℚ) (t : List ProcessRecord) : SystemStats :=
  let baseOsLoad : ℚ := 1/10
  let totalCpuUsage := clip (sumCpu t) 0 1
  let totalRamUsage := sumRam t + baseOsLoad
  let pageFault := sigma totalRamUsage
  let rawSwap := max 0 (totalRamUsage - 1)
  let swapUsage := clip (rawSwap / 1) 0 1
  let rawPower := 50 + totalCpuUsage * 100 + totalRamUsage * 40
  let power := clip (rawPower / 200) 0 1
  ⟨clip totalRamUsage 0 1, totalCpuUsage, pageFault, swapUsage, power⟩

/-- `_calculate_global_reward`. -/
def globalReward (stats : SystemStats) (t : List ProcessRecord) : ℚ :=
  let rStability : ℚ := if 9/10 ≤ stats.ramUsage then -10 else 1
  let rPower := (1 - stats.power) * 2
  let rQos := qosSum t
  let rTrashing := -(stats.swapUsage + stats.pageFault) * 5
  (2/5) * rStability + (1/5) * rPower + (3/10) * rQos + (1/10) * rTrashing

/-- Result of one per-slot handler: new table, new swap backups, local
reward.  Handlers read the step-start `system_stats` snapshot. -/
abbrev HandlerResult := List ProcessRecord × List ProcessRecord × ℚ

/-- `_handle_kill`. -/
def handleKill (t b : List ProcessRecord) (stats : SystemStats) (i : ℕ) :
    HandlerResult :=
  let r := t.getD i zeroRec
  if r.state ≠ 0 then
    let reward : ℚ :=
      if r.ram > 2/5 ∧ r.priority > 3/5 then -10
      else if r.ram > 2/5 ∧ r.priority ≤ 1/5 ∧ r.cpu < 1/10 then 20
      else -2
    (t.set i zeroRec, b.set i zeroRec, reward)
  else
    (t, b, -1)

/-- `_handle_swap_out`. -/
def handleSwapOut (t b : List ProcessRecord) (stats : SystemStats) (i : ℕ) :
    HandlerResult :=
  let r := t.getD i zeroRec
  if r.state = 3/10 then (t, b, -2)
  else if r.state = 0 then (t, b, -5)
  else
    let base : ℚ := if r.state = 6/10 then 5 else 2
    let reward := base + (if stats.ramUsage ≥ 4/5 then 10 else 0)
    (t.set i ⟨0, 0, r.priority, 3/10⟩, b.set i r, reward)

/-- `_handle_swap_in`. -/
def handleSwapIn (t b : List ProcessRecord) (stats : SystemStats) (i : ℕ) :
    HandlerResult :=
  let r := t.getD i zeroRec
  if r.state ≠ 3/10 then (t, b, -2)
  else
    let bk := b.getD i zeroRec
    let predicted := stats.ramUsage + bk.ram
    if predicted > 1 then (t, b, -10)
    else
      let reward := bk.priority * 5 - (if predicted ≥ 4/5 then 15 else 0)
      (t.set i ⟨bk.ram, bk.cpu, bk.priority, 1⟩, b.set i zeroRec, reward)

/-- `_handle_suspend`. -/
def handleSuspend (t b : List ProcessRecord) (stats : SystemStats) (i : ℕ) :
    HandlerResult :=
  let r := t.getD i zeroRec
  if r.state = 6/10 then (t, b, -2)
  else if r.state = 3/10 then (t, b, -3)
  else if r.state = 0 then (t, b, -5)
  else
    let reward : ℚ :=
      (if r.ram > 2/5 then 5 else 0) +
      (if stats.ramUsage ≥ 4/5 then 10 else 0) -
      (if r.priority > 3/5 then 12 else 0)
    (t.set i ⟨r.ram * (1/2), 0, r.priority, 6/10⟩, b, reward)

/-- `_handle_resume`. -/
def handleResume (t b : List ProcessRecord) (stats : SystemStats) (i : ℕ) :
    HandlerResult :=
  let r := t.getD i zeroRec
  if r.state ≠ 6/10 then (t, b, -2)
  else
    let originalRam := r.ram * 2
    let predicted := stats.ramUsage + originalRam
    if predicted > 1 then (t, b, -10)
    else
      let reward := r.priority * 5 - (if predicted ≥ 4/5 then 15 else 0)
      (t.set i ⟨originalRam, 1/5, r.priority, 1⟩, b, reward)

/-- `_handle_renice_decrease`. -/
def handleReniceDecrease (t b : List ProcessRecord) (stats : SystemStats)
    (i : ℕ) : HandlerResult :=
  let r := t.getD i zeroRec
  if r.state = 0 then (t, b, -5)
  else if r.priority ≤ 1/10 then (t, b, -2)
  else
    let newPriority := clip (r.priority - 1/5) 0 1
    let reward : ℚ :=
      if r.ram > 3/5 ∧ r.cpu < 1/20 then 10
      else if r.priority > 3/5 ∧ r.cpu > 2/5 then -8
      else 0
    (t.set i ⟨r.ram, r.cpu, newPriority, r.state⟩, b, reward)

/-- `_handle_renice_increase`. -/
def handleReniceIncrease (t b : List ProcessRecord) (stats : SystemStats)
    (i : ℕ) : HandlerResult :=
  let r := t.getD i zeroRec
  if r.state = 0 then (t, b, -5)
  else if r.priority ≥ 19/20 then (t, b, -2)
  else
    let newPriority := clip (r.priority + 1/5) 0 1
    let reward : ℚ :=
      if r.cpu > 1/2 then 10
      else if r.priority < 1/5 ∧ r.ram < 1/10 then -8
      else 0
    (t.set i ⟨r.ram, r.cpu, newPriority, r.state⟩, b, reward)

/-- `_handle_noop`. -/
def handleNoop (t b : List ProcessRecord) (stats : SystemStats) (i : ℕ) :
    HandlerResult :=
  (t, b, 0)

/-- The `self.handlers` dispatch array, indexed by action code 0–7. -/
def dispatch (code : ℕ) : List ProcessRecord → List ProcessRecord →
    SystemStats → ℕ → HandlerResult :=
  match code with
  | 0 => handleKill
  | 1 => handleSwapOut
  | 2 => handleSwapIn
  | 3 => handleSuspend
  | 4 => handleResume
  | 5 => handleReniceIncrease
  | 6 => handleReniceDecrease
  | _ => handleNoop

/-- The handler phase of `step`: `for i in range(k): reward +=
handlers[action[i]](i)`, by ascending slot index, all handlers reading the
step-start stats snapshot. -/
def handlerLoop (stats : SystemStats) (a : List ℕ) :
    List ℕ → List ProcessRecord → List ProcessRecord → ℚ → HandlerResult
  | [], t, b, acc => (t, b, acc)
  | i :: rest, t, b, acc =>
    let res := dispatch (a.getD i 0) t b stats i
    handlerLoop stats a rest res.1 res.2.1 (acc + res.2.2)

/-- The random-termination tail of one `_apply_process_dynamics` iteration:
each Running slot is zeroed with 2% probability. -/
def dynDeath (t : List ProcessRecord) (i : ℕ) : Rand (List ProcessRecord) :=
  fun g =>
    let deathRoll := (nextQ g).1
    if deathRoll < 1/50 then (t.set i zeroRec, (nextQ g).2) else (t, (nextQ g).2)

/-- One slot of `_apply_process_dynamics`: Running slots get CPU jitter,
leak growth or RAM jitter, then the 2% termination roll (`dynDeath`); other
slots consume no randomness and are untouched.  The leak test reads the
*original* `ram`/`cpu` locals, as in the source. -/
def dynamicsSlot (t : List ProcessRecord) (i : ℕ) : Rand (List ProcessRecord) :=
  fun g =>
    let r := t.getD i zeroRec
    if r.state = 1 then
      let cpuJitter := (randUniform (-(1/20)) (1/20) g).1
      let g1 := (randUniform (-(1/20)) (1/20) g).2
      let t1 := t.set i ⟨r.ram, clip (r.cpu + cpuJitter) (1/100) (19/20),
        r.priority, r.state⟩
      if r.ram > 3/5 ∧ r.cpu < 1/10 then
        let leakAmount := (randUniform (1/100) (3/50) g1).1
        dynDeath (t1.set i ⟨clip (r.ram + leakAmount) 0 1,
          (t1.getD i zeroRec).cpu, r.priority, r.state⟩) i
          (randUniform (1/100) (3/50) g1).2
      else
        let ramJitter := (randUniform (-(1/50)) (1/50) g1).1
        dynDeath (t1.set i ⟨clip (r.ram + ramJitter) (1/100) (19/20),
          (t1.getD i zeroRec).cpu, r.priority, r.state⟩) i
          (randUniform (-(1/50)) (1/50) g1).2
    else
      (t, g)

/-- `_apply_process_dynamics`: the loop `for i in range(k)`. -/
def dynamicsLoop : List ℕ → List ProcessRecord → Rand (List ProcessRecord)
  | [], t => fun g => (t, g)
  | i :: rest, t => fun g =>
    let res := dynamicsSlot t i g
    dynamicsLoop rest res.1 res.2

/-- The four process profiles of `_spawn_new_process`'s `np.random.choice`. -/
inductive Profile where
  | idle
  | active
  | heavy
  | leaky
deriving DecidableEq, Repr

/-- `np.random.choice(['idle','active','heavy','leaky'], p=[0.5,0.3,0.15,0.05])`
decoded from one uniform draw by cumulative probabilities. -/
def profileFromRoll (c : ℚ) : Profile :=
  if c < 1/2 then .idle
  else if c < 4/5 then .active
  else if c < 19/20 then .heavy
  else .leaky

/-- Three uniform draws (RAM, CPU, priority) making a Running record; the
shape shared by every profile generator of `reset` and `_spawn_new_process`. -/
def drawTriple (r1 r2 r3 : ℚ × ℚ) : Rand ProcessRecord := fun g =>
  let ram := (randUniform r1.1 r1.2 g).1
  let g1 := (randUniform r1.1 r1.2 g).2
  let cpu := (randUniform r2.1 r2.2 g1).1
  let g2 := (randUniform r2.1 r2.2 g1).2
  let prio := (randUniform r3.1 r3.2 g2).1
  (⟨ram, cpu, prio, 1⟩, (randUniform r3.1 r3.2 g2).2)

/-- Drawing the replacement record in `_spawn_new_process`: one profile
choice followed by three uniforms (RAM, CPU, priority; state 1.0).  Note the
leaky RAM range here is `uniform(0.3, 0.5)`, unlike the reset-time leaky
range `uniform(0.6, 0.8)`. -/
def spawnDraw : Rand ProcessRecord := fun g =>
  let c := (nextQ g).1
  let g0 := (nextQ g).2
  match profileFromRoll c with
  | .heavy => drawTriple (2/5, 3/5) (3/5, 9/10) (7/10, 1) g0
  | .leaky => drawTriple (3/10, 1/2) (0, 1/20) (0, 1/5) g0
  | .active => drawTriple (1/10, 2/5) (1/5, 1/2) (2/5, 7/10) g0
  | .idle => drawTriple (1/100, 1/20) (0, 1/50) (1/10, 2/5) g0

/-- One slot of `_spawn_new_process`: a slot that was Killed when the pass
computed its `killed_indices` (`origT`) rolls a 5% respawn chance and, on
success, is overwritten with a fresh profile draw. -/
def spawnSlot (origT t : List ProcessRecord) (i : ℕ) :
    Rand (List ProcessRecord) := fun g =>
  if (origT.getD i zeroRec).state = 0 then
    let roll := (nextQ g).1
    let g1 := (nextQ g).2
    if roll < 1/20 then
      (t.set i (spawnDraw g1).1, (spawnDraw g1).2)
    else
      (t, g1)
  else
    (t, g)

/-- The loop of `_spawn_new_process` over the slots, with the killed test
taken on the table as it stood at the start of the pass (`origT`). -/
def spawnLoop (origT : List ProcessRecord) :
    List ℕ → List ProcessRecord → Rand (List ProcessRecord)
  | [], t => fun g => (t, g)
  | i :: rest, t => fun g =>
    let res := spawnSlot origT t i g
    spawnLoop origT rest res.1 res.2

/-- `_spawn_new_process` on a table of `k` slots. -/
def spawnPass (k : ℕ) (t : List ProcessRecord) : Rand (List ProcessRecord) :=
  spawnLoop t (List.range k) t

/-- The whole mutable state of a `RamSimEnv` instance. -/
structure EnvState where
  k : ℕ
  currentStep : ℕ
  processTable : List ProcessRecord
  swappedProcesses : List ProcessRecord
  systemStats : SystemStats
deriving DecidableEq, Repr

/-- Generate `n` records with one generator (the profile loops of `reset`,
including the `while len < k` idle fill). -/
def genRecords (gen : Rand ProcessRecord) : ℕ → Rand (List ProcessRecord)
  | 0 => fun g => ([], g)
  | n + 1 => fun g =>
    let r := (gen g).1
    let g1 := (gen g).2
    ((r :: (genRecords gen n g1).1), (genRecords gen n g1).2)

/-- Reset-time heavy profile: `ram[0.4,0.6], cpu[0.6,0.9], prio[0.7,1.0]`. -/
def resetHeavy : Rand ProcessRecord := drawTriple (2/5, 3/5) (3/5, 9/10) (7/10, 1)

/-- Reset-time leaky profile: `ram[0.6,0.8], cpu[0,0.05], prio[0,0.2]`. -/
def resetLeaky : Rand ProcessRecord := drawTriple (3/5, 4/5) (0, 1/20) (0, 1/5)

/-- Reset-time active profile: `ram[0.1,0.4], cpu[0.2,0.5], prio[0.4,0.7]`. -/
def resetActive : Rand ProcessRecord := drawTriple (1/10, 2/5) (1/5, 1/2) (2/5, 7/10)

/-- Reset-time idle profile: `ram[0.01,0.05], cpu[0,0.02], prio[0.1,0.4]`. -/
def resetIdle : Rand ProcessRecord := drawTriple (1/100, 1/20) (0, 1/50) (1/10, 2/5)

/-- Swap two positions of a list (one Fisher–Yates step). -/
def listSwap (l : List ProcessRecord) (i j : ℕ) : List ProcessRecord :=
  match l.get? i, l.get? j with
  | some a, some b => (l.set i b).set j a
  | _, _ => l

/-- The descending Fisher–Yates loop of `np.random.shuffle`: for index
`i+1` down to `1`, draw `j ∈ [0, i+1]` and swap. -/
def shuffleAux (l : List ProcessRecord) : ℕ → Rand (List ProcessRecord)
  | 0 => fun g => (l, g)
  | i + 1 => fun g =>
    let j := (randIntBelow (i + 2) g).1
    shuffleAux (listSwap l (i + 1) j) i (randIntBelow (i + 2) g).2

/-- `np.random.shuffle(processes)`. -/
def shuffleList (l : List ProcessRecord) : Rand (List ProcessRecord) :=
  match l.length with
  | 0 => fun g => (l, g)
  | n + 1 => shuffleAux l n

/-- `reset(seed)`.  Gymnasium's `super().reset(seed=seed)` seeds only the
instance generator `self.np_random`, which this environment never reads: all
sampling goes through the global `np.random` stream, so the `seed` argument
does not influence the draws and is ignored here.  Returns `none` when
`heavy_count + leaky_count > k`, where `np.random.randint(0, k-h-l+1)`
raises `ValueError` in numpy. -/
def resetFn (sigma : ℚ → ℚ) (k : ℕ) (seed : Option ℕ) :
    Rand (Option EnvState) := fun g =>
  let heavyCount := (randIntBelow 2 g).1
  let g1 := (randIntBelow 2 g).2
  let leakyCount := (randIntBelow 2 g1).1
  let g2 := (randIntBelow 2 g1).2
  if k < heavyCount + leakyCount then
    (none, g2)
  else
    let activeCount := (randIntBelow (k - heavyCount - leakyCount + 1) g2).1
    let g3 := (randIntBelow (k - heavyCount - leakyCount + 1) g2).2
    let heavies := (genRecords resetHeavy heavyCount g3).1
    let g4 := (genRecords resetHeavy heavyCount g3).2
    let leakies := (genRecords resetLeaky leakyCount g4).1
    let g5 := (genRecords resetLeaky leakyCount g4).2
    let actives := (genRecords resetActive activeCount g5).1
    let g6 := (genRecords resetActive activeCount g5).2
    let base := heavies ++ leakies ++ actives
    let idles := (genRecords resetIdle (k - base.length) g6).1
    let g7 := (genRecords resetIdle (k - base.length) g6).2
    let processes := base ++ idles
    let table := (shuffleList processes g7).1
    let g8 := (shuffleList processes g7).2
    let stats := computeStats sigma table
    (some ⟨k, 0, table, List.replicate k zeroRec, stats⟩, g8)

/-- `step(action)`: handler phase (ascending slot index, step-start stats
snapshot), dynamics pass, spawn pass, telemetry recomputation, global
reward, termination test `system_stats[RAM_USAGE_INDEX] >= 1.0`. -/
def stepFn (sigma : ℚ → ℚ) (s : EnvState) (a : List ℕ) :
    Rand (EnvState × ℚ × Bool) := fun g =>
  let hres :=
    handlerLoop s.systemStats a (List.range s.k) s.processTable
      s.swappedProcesses 0
  let t1 := hres.1
  let b1 := hres.2.1
  let localReward := hres.2.2
  let t2 := (dynamicsLoop (List.range s.k) t1 g).1
  let g1 := (dynamicsLoop (List.range s.k) t1 g).2
  let t3 := (spawnPass s.k t2 g1).1
  let g2 := (spawnPass s.k t2 g1).2
  let stats := computeStats sigma t3
  let reward := localReward + globalReward stats t3
  let terminated := decide (stats.ramUsage ≥ 1)
  ((⟨s.k, s.currentStep + 1, t3, b1, stats⟩, reward, terminated), g2)

/-- `step` with its caller contract made explicit: the action vector must
have length `k` with codes in `[0, 7]` (out-of-range codes would raise an
`IndexError` on the `handlers` array, a length mismatch an `IndexError` on
`action[i]`). -/
def stepChecked (sigma : ℚ → ℚ) (s : EnvState) (a : List ℕ) :
    Rand (Option (EnvState × ℚ × Bool)) := fun g =>
  if a.length = s.k ∧ ∀ c ∈ a, c < 8 then
    (some (stepFn sigma s a g).1, (stepFn sigma s a g).2)
  else
    (none, g)

/-- States reachable by `reset` followed by any sequence of (well-formed)
`step` calls, over any bounded random stream. -/
inductive Reachable (sigma : ℚ → ℚ) : EnvState → Prop where
  | reset (k : ℕ) (seed : Option ℕ) (g : RStream) (s : EnvState)
      (hg : g.Bounded) (h : (resetFn sigma k seed g).1 = some s) :
      Reachable sigma s
  | step (s : EnvState) (a : List ℕ) (g : RStream) (s' : EnvState)
      (hs : Reachable sigma s) (hg : g.Bounded) (hlen : a.length = s.k)
      (hcodes : ∀ c ∈ a, c < 8) (h : (stepFn sigma s a g).1.1 = s') :
      Reachable sigma s'

/-! ### The per-slot invariant

`SlotInv r b` collects the record-level invariants of §3/§8 of the design:
all numeric fields in `[0,1]`, the state a valid code, a Suspended slot's
RAM at most `0.5` (it was halved on suspend), a Swapped slot's in-table RAM
and CPU zero, bounded backup fields, and the backup present (non-zero) iff
the slot is Swapped. -/

def unitI (x : ℚ) : Prop := 0 ≤ x ∧ x ≤ 1

structure SlotInv (r b : ProcessRecord) : Prop where
  ram01 : unitI r.ram
  cpu01 : unitI r.cpu
  prio01 : unitI r.priority
  stateEnum : r.state = 0 ∨ r.state = 3/10 ∨ r.state = 6/10 ∨ r.state = 1
  suspHalf : r.state = 6/10 → r.ram ≤ 1/2
  swapZero : r.state = 3/10 → r.ram = 0 ∧ r.cpu = 0
  bram01 : unitI b.ram
  bcpu01 : unitI b.cpu
  bprio01 : unitI b.priority
  backupIff : b ≠ zeroRec ↔ r.state = 3/10

/-- The environment-level invariant: index-aligned table and backup lists of
length `k`, with `SlotInv` at every index. -/
def EnvInv (s : EnvState) : Prop :=
  s.processTable.length = s.k ∧ s.swappedProcesses.length = s.k ∧
    ∀ j, SlotInv (s.processTable.getD j zeroRec)
      (s.swappedProcesses.getD j zeroRec)

/-- `SlotInv` at every index of a table/backup pair. -/
def TableInv (t b : List ProcessRecord) : Prop :=
  ∀ j, SlotInv (t.getD j zeroRec) (b.getD j zeroRec)

/-- Initial/spawned records: Running with all fields in `[0,1]`. -/
def GoodInit (r : ProcessRecord) : Prop :=
  unitI r.ram ∧ unitI r.cpu ∧ unitI r.priority ∧ r.state = 1

/-- The field ranges a respawned record can exhibit, by profile (idle,
active, heavy, leaky in that order), with the leaky RAM range `[0.3, 0.5]`
as in `_spawn_new_process` (not the reset-time `[0.6, 0.8]`). -/
def SpawnRanges (r : ProcessRecord) : Prop :=
  r.state = 1 ∧
  ((1/100 ≤ r.ram ∧ r.ram ≤ 1/20 ∧ 0 ≤ r.cpu ∧ r.cpu ≤ 1/50 ∧
      1/10 ≤ r.priority ∧ r.priority ≤ 2/5) ∨
   (1/10 ≤ r.ram ∧ r.ram ≤ 2/5 ∧ 1/5 ≤ r.cpu ∧ r.cpu ≤ 1/2 ∧
      2/5 ≤ r.priority ∧ r.priority ≤ 7/10) ∨
   (2/5 ≤ r.ram ∧ r.ram ≤ 3/5 ∧ 3/5 ≤ r.cpu ∧ r.cpu ≤ 9/10 ∧
      7/10 ≤ r.priority ∧ r.priority ≤ 1) ∨
   (3/10 ≤ r.ram ∧ r.ram ≤ 1/2 ∧ 0 ≤ r.cpu ∧ r.cpu ≤ 1/20 ∧
      0 ≤ r.priority ∧ r.priority ≤ 1/5))

/-! ### Concrete fixtures used by witnesses: a `k = 1` environment reset on
the all-zero stream, then stepped once with a swap-out action. -/

/-- A concrete page-fault function (its values are irrelevant). -/
def sigZero : ℚ → ℚ := fun _ => 0

/-- The all-zero random stream. -/
def gZero : RStream := ⟨fun _ => 0, 0⟩

/-- The `k = 1` state produced by `reset` on the all-zero stream: one idle
process `[0.01, 0, 0.1, Running]` (see `envS0_reset`). -/
def envS0 : EnvState :=
  ⟨1, 0, [⟨1/100, 0, 1/10, 1⟩], [zeroRec], ⟨11/100, 0, 0, 0, 34/125⟩⟩

/-- `envS0` stepped with action vector `[1]` (swap-out of slot 0): the slot
becomes `[0, 0, 0.1, Swapped]` with backup `[0.01, 0, 0.1, Running]`
(see `envS1_step`). -/
def envS1 : EnvState :=
  ⟨1, 1, [⟨0, 0, 1/10, 3/10⟩], [⟨1/100, 0, 1/10, 1⟩],
    ⟨1/10, 0, 0, 0, 27/100⟩⟩

/-! ### Basic lemmas about list access, clipping and uniform draws -/

theorem getD_set_ne {l : List ProcessRecord} {i j : ℕ} (a d : ProcessRecord)
    (h : i ≠ j) : (l.set i a).getD j d = l.getD j d := by
  simp [List.getD, List.getElem?_set_ne h]

theorem getD_set_self {l : List ProcessRecord} {i : ℕ} (a d : ProcessRecord)
    (h : i < l.length) : (l.set i a).getD i d = a := by
  simp [List.getD, List.getElem?_set_self, h]

theorem set_oob {l : List ProcessRecord} {i : ℕ} (a : ProcessRecord)
    (h : ¬ i < l.length) : l.set i a = l :=
  List.set_eq_of_length_le (Nat.le_of_not_lt h)

theorem getD_oob {l : List ProcessRecord} {i : ℕ} (d : ProcessRecord)
    (h : ¬ i < l.length) : l.getD i d = d := by
  simp [List.getD, List.getElem?_eq_none (Nat.le_of_not_lt h)]

theorem getD_mem {l : List ProcessRecord} {i : ℕ} (d : ProcessRecord)
    (h : i < l.length) : l.getD i d ∈ l := by
  rw [List.getD_eq_getElem l d h]; exact List.getElem_mem h

theorem clip_le_hi (x lo hi : ℚ) : clip x lo hi ≤ hi := min_le_right _ _

theorem lo_le_clip (x : ℚ) {lo hi : ℚ} (h : lo ≤ hi) : lo ≤ clip x lo hi :=
  le_min (le_max_right x lo) h

/-- A draw in `[0,1]` pushed through `uniform(a, b)` lies in `[a, b]`. -/
theorem randUniform_mem {a b : ℚ} (hab : a ≤ b) {u : ℚ} (h0 : 0 ≤ u)
    (h1 : u ≤ 1) : a ≤ a + (b - a) * u ∧ a + (b - a) * u ≤ b := by
  constructor
  · nlinarith
  · nlinarith

theorem randUniform_run (a b : ℚ) (g : RStream) :
    randUniform a b g =
      (a + (b - a) * g.vals g.pos, ⟨g.vals, g.pos + 1⟩) := rfl

/-- The value of `randUniform` on a bounded stream lies in `[a, b]`. -/
theorem randUniform_val_mem {a b : ℚ} (hab : a ≤ b) {g : RStream}
    (hg : g.Bounded) :
    a ≤ (randUniform a b g).1 ∧ (randUniform a b g).1 ≤ b := by
  rw [randUniform_run]
  exact randUniform_mem hab (hg g.pos).1 (hg g.pos).2

/-! ### Preservation of the stream value function

Every random operation only advances the cursor; the underlying value
function (hence boundedness) is unchanged. -/

theorem vals_nextQ (g : RStream) : (nextQ g).2.vals = g.vals := rfl

theorem vals_randUniform (a b : ℚ) (g : RStream) :
    (randUniform a b g).2.vals = g.vals := rfl

theorem vals_randIntBelow (n : ℕ) (g : RStream) :
    (randIntBelow n g).2.vals = g.vals := rfl

theorem vals_drawTriple (r1 r2 r3 : ℚ × ℚ) (g : RStream) :
    (drawTriple r1 r2 r3 g).2.vals = g.vals := rfl

theorem vals_spawnDraw (g : RStream) : (spawnDraw g).2.vals = g.vals := by
  unfold spawnDraw
  dsimp only
  rcases h : profileFromRoll (nextQ g).1 with _ | _ | _ | _ <;> simp only [h] <;> rfl

theorem vals_dynDeath (t : List ProcessRecord) (i : ℕ) (g : RStream) :
    (dynDeath t i g).2.vals = g.vals := by
  unfold dynDeath nextQ
  dsimp only
  split <;> rfl

theorem vals_dynamicsSlot (t : List ProcessRecord) (i : ℕ) (g : RStream) :
    (dynamicsSlot t i g).2.vals = g.vals := by
  unfold dynamicsSlot
  dsimp only
  split
  · split <;> rw [vals_dynDeath, vals_randUniform, vals_randUniform]
  · rfl

theorem vals_dynamicsLoop (idxs : List ℕ) (t : List ProcessRecord)
    (g : RStream) : (dynamicsLoop idxs t g).2.vals = g.vals := by
  induction idxs generalizing t g with
  | nil => rfl
  | cons i rest ih =>
    show (dynamicsLoop rest (dynamicsSlot t i g).1 (dynamicsSlot t i g).2).2.vals = _
    rw [ih, vals_dynamicsSlot]

theorem vals_spawnSlot (origT t : List ProcessRecord) (i : ℕ) (g : RStream) :
    (spawnSlot origT t i g).2.vals = g.vals := by
  unfold spawnSlot nextQ
  dsimp only
  split
  · split
    · rw [vals_spawnDraw]
    · rfl
  · rfl

theorem vals_spawnLoop (origT : List ProcessRecord) (idxs : List ℕ)
    (t : List ProcessRecord) (g : RStream) :
    (spawnLoop origT idxs t g).2.vals = g.vals := by
  induction idxs generalizing t g with
  | nil => rfl
  | cons i rest ih =>
    show (spawnLoop origT rest (spawnSlot origT t i g).1
      (spawnSlot origT t i g).2).2.vals = _
    rw [ih, vals_spawnSlot]

theorem vals_genRecords (gen : Rand ProcessRecord)
    (hgen : ∀ g, (gen g).2.vals = g.vals) (n : ℕ) (g : RStream) :
    (genRecords gen n g).2.vals = g.vals := by
  induction n generalizing g with
  | zero => rfl
  | succ m ih =>
    show (genRecords gen m (gen g).2).2.vals = _
    rw [ih, hgen]

theorem vals_shuffleAux (l : List ProcessRecord) (n : ℕ) (g : RStream) :
    (shuffleAux l n g).2.vals = g.vals := by
  induction n generalizing l g with
  | zero => rfl
  | succ m ih =>
    show (shuffleAux (listSwap l (m + 1) _) m (randIntBelow (m + 2) g).2).2.vals = _
    rw [ih, vals_randIntBelow]

theorem vals_shuffleList (l : List ProcessRecord) (g : RStream) :
    (shuffleList l g).2.vals = g.vals := by
  unfold shuffleList
  rcases l.length with _ | n
  · rfl
  · exact vals_shuffleAux l n g

theorem slotInv_zero : SlotInv zeroRec zeroRec := by
  refine ⟨⟨le_refl 0, by norm_num [zeroRec]⟩, ⟨le_refl 0, by norm_num [zeroRec]⟩,
    ⟨le_refl 0, by norm_num [zeroRec]⟩, Or.inl rfl, ?_, ?_,
    ⟨le_refl 0, by norm_num [zeroRec]⟩, ⟨le_refl 0, by norm_num [zeroRec]⟩,
    ⟨le_refl 0, by norm_num [zeroRec]⟩, ?_⟩
  · intro h; exact absurd h (by norm_num [zeroRec])
  · intro h; exact absurd h (by norm_num [zeroRec])
  · constructor
    · intro h; exact absurd rfl h
    · intro h; exact absurd h (by norm_num [zeroRec])

/-- A record whose state is non-zero is itself non-zero. -/
theorem ne_zeroRec_of_state_ne {r : ProcessRecord} (h : r.state ≠ 0) :
    r ≠ zeroRec := by
  intro hEq
  exact h (by rw [hEq]; rfl)

theorem handleKill_lengths (t b : List ProcessRecord) (stats : SystemStats)
    (i : ℕ) : (handleKill t b stats i).1.length = t.length ∧
      (handleKill t b stats i).2.1.length = b.length := by
  unfold handleKill
  dsimp only
  split <;> simp

theorem handleKill_tableInv (t b : List ProcessRecord) (stats : SystemStats)
    (i : ℕ) (h : TableInv t b) :
    TableInv (handleKill t b stats i).1 (handleKill t b stats i).2.1 := by
  unfold handleKill
  dsimp only
  split
  · intro j
    rcases eq_or_ne i j with rfl | hj
    · by_cases hi : i < t.length
      · rw [getD_set_self _ _ hi]
        by_cases hib : i < b.length
        · rw [getD_set_self _ _ hib]; exact slotInv_zero
        · rw [set_oob _ hib, getD_oob _ hib]; exact slotInv_zero
      · rw [set_oob _ hi, getD_oob _ hi]
        by_cases hib : i < b.length
        · rw [getD_set_self _ _ hib]
          have := (h i).backupIff
          have hs : (t.getD i zeroRec).state = 0 := by
            rw [getD_oob _ hi]
            rfl
          rename_i hne
          exact absurd hs hne
        · rw [set_oob _ hib, getD_oob _ hib]; exact slotInv_zero
    · rw [getD_set_ne _ _ hj, getD_set_ne _ _ hj]
      exact h j
  · exact h

theorem handleSwapOut_lengths (t b : List ProcessRecord)
    (stats : SystemStats) (i : ℕ) :
    (handleSwapOut t b stats i).1.length = t.length ∧
      (handleSwapOut t b stats i).2.1.length = b.length := by
  unfold handleSwapOut
  dsimp only
  split
  · exact ⟨rfl, rfl⟩
  · split <;> simp

theorem handleSwapOut_tableInv (t b : List ProcessRecord)
    (stats : SystemStats) (i : ℕ) (hL : t.length = b.length)
    (h : TableInv t b) :
    TableInv (handleSwapOut t b stats i).1 (handleSwapOut t b stats i).2.1 := by
  unfold handleSwapOut
  dsimp only
  split
  · exact h
  · split
    · exact h
    · rename_i hswap hkill
      have hi : i < t.length := by
        by_contra hi
        exact hkill (by rw [getD_oob _ hi]; rfl)
      have hib : i < b.length := hL ▸ hi
      intro j
      rcases eq_or_ne i j with rfl | hj
      · rw [getD_set_self _ _ hi, getD_set_self _ _ hib]
        have hr := h i
        refine ⟨⟨le_refl 0, by norm_num⟩, ⟨le_refl 0, by norm_num⟩,
          hr.prio01, Or.inr (Or.inl rfl), ?_, ?_, hr.ram01, hr.cpu01,
          hr.prio01, ?_⟩
        · intro hbad; exact absurd hbad (by norm_num)
        · intro _; exact ⟨rfl, rfl⟩
        · constructor
          · intro _; rfl
          · intro _; exact ne_zeroRec_of_state_ne hkill
      · rw [getD_set_ne _ _ hj, getD_set_ne _ _ hj]
        exact h j

theorem handleSwapIn_lengths (t b : List ProcessRecord)
    (stats : SystemStats) (i : ℕ) :
    (handleSwapIn t b stats i).1.length = t.length ∧
      (handleSwapIn t b stats i).2.1.length = b.length := by
  unfold handleSwapIn
  dsimp only
  split
  · exact ⟨rfl, rfl⟩
  · split <;> simp

theorem handleSwapIn_tableInv (t b : List ProcessRecord)
    (stats : SystemStats) (i : ℕ) (hL : t.length = b.length)
    (h : TableInv t b) :
    TableInv (handleSwapIn t b stats i).1 (handleSwapIn t b stats i).2.1 := by
  unfold handleSwapIn
  dsimp only
  split
  · exact h
  · split
    · exact h
    · rename_i hstate _
      rw [not_not] at hstate
      have hi : i < t.length := by
        by_contra hi
        rw [getD_oob _ hi] at hstate
        norm_num [zeroRec] at hstate
      have hib : i < b.length := hL ▸ hi
      intro j
      rcases eq_or_ne i j with rfl | hj
      · rw [getD_set_self _ _ hi, getD_set_self _ _ hib]
        have hr := h i
        refine ⟨hr.bram01, hr.bcpu01, hr.bprio01, Or.inr (Or.inr (Or.inr rfl)),
          ?_, ?_, ⟨le_refl 0, by norm_num [zeroRec]⟩,
          ⟨le_refl 0, by norm_num [zeroRec]⟩,
          ⟨le_refl 0, by norm_num [zeroRec]⟩, ?_⟩
        · intro hbad; exact absurd hbad (by norm_num)
        · intro hbad; exact absurd hbad (by norm_num)
        · constructor
          · intro hbad; exact absurd rfl hbad
          · intro hbad; exact absurd hbad (by norm_num)
      · rw [getD_set_ne _ _ hj, getD_set_ne _ _ hj]
        exact h j

theorem handleSuspend_lengths (t b : List ProcessRecord)
    (stats : SystemStats) (i : ℕ) :
    (handleSuspend t b stats i).1.length = t.length ∧
      (handleSuspend t b stats i).2.1.length = b.length := by
  unfold handleSuspend
  dsimp only
  split
  · exact ⟨rfl, rfl⟩
  · split
    · exact ⟨rfl, rfl⟩
    · split <;> simp

theorem handleSuspend_tableInv (t b : List ProcessRecord)
    (stats : SystemStats) (i : ℕ) (h : TableInv t b) :
    TableInv (handleSuspend t b stats i).1 (handleSuspend t b stats i).2.1 := by
  unfold handleSuspend
  dsimp only
  split
  · exact h
  · split
    · exact h
    · split
      · exact h
      · rename_i hsusp hswap hkill
        have hi : i < t.length := by
          by_contra hi
          exact hkill (by rw [getD_oob _ hi]; rfl)
        intro j
        rcases eq_or_ne i j with rfl | hj
        · rw [getD_set_self _ _ hi]
          have hr := h i
          have hb0 : b.getD i zeroRec = zeroRec := by
            by_contra hb
            exact hswap (hr.backupIff.mp hb)
          rw [hb0]
          refine ⟨⟨?_, ?_⟩, ⟨le_refl 0, by norm_num⟩, hr.prio01,
            Or.inr (Or.inr (Or.inl rfl)), ?_, ?_,
            ⟨le_refl 0, by norm_num [zeroRec]⟩,
            ⟨le_refl 0, by norm_num [zeroRec]⟩,
            ⟨le_refl 0, by norm_num [zeroRec]⟩, ?_⟩
          · have := hr.ram01.1
            dsimp only
            nlinarith
          · have := hr.ram01.2
            dsimp only
            nlinarith
          · intro _
            have := hr.ram01.2
            dsimp only
            nlinarith
          · intro hbad; exact absurd hbad (by norm_num)
          · constructor
            · intro hbad; exact absurd rfl hbad
            · intro hbad; exact absurd hbad (by norm_num)
        · rw [getD_set_ne _ _ hj]
          exact h j

theorem handleResume_lengths (t b : List ProcessRecord)
    (stats : SystemStats) (i : ℕ) :
    (handleResume t b stats i).1.length = t.length ∧
      (handleResume t b stats i).2.1.length = b.length := by
  unfold handleResume
  dsimp only
  split
  · exact ⟨rfl, rfl⟩
  · split <;> simp

theorem handleResume_tableInv (t b : List ProcessRecord)
    (stats : SystemStats) (i : ℕ) (h : TableInv t b) :
    TableInv (handleResume t b stats i).1 (handleResume t b stats i).2.1 := by
  unfold handleResume
  dsimp only
  split
  · exact h
  · split
    · exact h
    · rename_i hstate _
      rw [not_not] at hstate
      have hi : i < t.length := by
        by_contra hi
        rw [getD_oob _ hi] at hstate
        norm_num [zeroRec] at hstate
      intro j
      rcases eq_or_ne i j with rfl | hj
      · rw [getD_set_self _ _ hi]
        have hr := h i
        have hb0 : b.getD i zeroRec = zeroRec := by
          by_contra hb
          have := hr.backupIff.mp hb
          rw [hstate] at this
          norm_num at this
        rw [hb0]
        have hhalf := hr.suspHalf hstate
        refine ⟨⟨?_, ?_⟩, ⟨by norm_num, by norm_num⟩, hr.prio01,
          Or.inr (Or.inr (Or.inr rfl)), ?_, ?_,
          ⟨le_refl 0, by norm_num [zeroRec]⟩,
          ⟨le_refl 0, by norm_num [zeroRec]⟩,
          ⟨le_refl 0, by norm_num [zeroRec]⟩, ?_⟩
        · have := hr.ram01.1
          dsimp only
          nlinarith
        · dsimp only
          nlinarith
        · intro hbad; exact absurd hbad (by norm_num)
        · intro hbad; exact absurd hbad (by norm_num)
        · constructor
          · intro hbad; exact absurd rfl hbad
          · intro hbad; exact absurd hbad (by norm_num)
      · rw [getD_set_ne _ _ hj]
        exact h j

theorem handleReniceDecrease_lengths (t b : List ProcessRecord)
    (stats : SystemStats) (i : ℕ) :
    (handleReniceDecrease t b stats i).1.length = t.length ∧
      (handleReniceDecrease t b stats i).2.1.length = b.length := by
  unfold handleReniceDecrease
  dsimp only
  split
  · exact ⟨rfl, rfl⟩
  · split <;> simp

theorem handleReniceDecrease_tableInv (t b : List ProcessRecord)
    (stats : SystemStats) (i : ℕ) (h : TableInv t b) :
    TableInv (handleReniceDecrease t b stats i).1
      (handleReniceDecrease t b stats i).2.1 := by
  unfold handleReniceDecrease
  dsimp only
  split
  · exact h
  · split
    · exact h
    · rename_i hkill _
      have hi : i < t.length := by
        by_contra hi
        exact hkill (by rw [getD_oob _ hi]; rfl)
      intro j
      rcases eq_or_ne i j with rfl | hj
      · rw [getD_set_self _ _ hi]
        have hr := h i
        refine ⟨hr.ram01, hr.cpu01,
          ⟨lo_le_clip _ (by norm_num), clip_le_hi _ _ _⟩, hr.stateEnum,
          hr.suspHalf, ?_, hr.bram01, hr.bcpu01, hr.bprio01, hr.backupIff⟩
        · intro hs
          exact hr.swapZero hs
      · rw [getD_set_ne _ _ hj]
        exact h j

theorem handleReniceIncrease_lengths (t b : List ProcessRecord)
    (stats : SystemStats) (i : ℕ) :
    (handleReniceIncrease t b stats i).1.length = t.length ∧
      (handleReniceIncrease t b stats i).2.1.length = b.length := by
  unfold handleReniceIncrease
  dsimp only
  split
  · exact ⟨rfl, rfl⟩
  · split <;> simp

theorem handleReniceIncrease_tableInv (t b : List ProcessRecord)
    (stats : SystemStats) (i : ℕ) (h : TableInv t b) :
    TableInv (handleReniceIncrease t b stats i).1
      (handleReniceIncrease t b stats i).2.1 := by
  unfold handleReniceIncrease
  dsimp only
  split
  · exact h
  · split
    · exact h
    · rename_i hkill _
      have hi : i < t.length := by
        by_contra hi
        exact hkill (by rw [getD_oob _ hi]; rfl)
      intro j
      rcases eq_or_ne i j with rfl | hj
      · rw [getD_set_self _ _ hi]
        have hr := h i
        refine ⟨hr.ram01, hr.cpu01,
          ⟨lo_le_clip _ (by norm_num), clip_le_hi _ _ _⟩, hr.stateEnum,
          hr.suspHalf, ?_, hr.bram01, hr.bcpu01, hr.bprio01, hr.backupIff⟩
        · intro hs
          exact hr.swapZero hs
      · rw [getD_set_ne _ _ hj]
        exact h j

/-- Every handler (hence `dispatch c` for any code) preserves both list
lengths and the per-slot invariant. -/
theorem dispatch_lengths (c : ℕ) (t b : List ProcessRecord)
    (stats : SystemStats) (i : ℕ) :
    (dispatch c t b stats i).1.length = t.length ∧
      (dispatch c t b stats i).2.1.length = b.length := by
  unfold dispatch
  match c with
  | 0 => exact handleKill_lengths t b stats i
  | 1 => exact handleSwapOut_lengths t b stats i
  | 2 => exact handleSwapIn_lengths t b stats i
  | 3 => exact handleSuspend_lengths t b stats i
  | 4 => exact handleResume_lengths t b stats i
  | 5 => exact handleReniceIncrease_lengths t b stats i
  | 6 => exact handleReniceDecrease_lengths t b stats i
  | (n + 7) => exact ⟨rfl, rfl⟩

theorem dispatch_tableInv (c : ℕ) (t b : List ProcessRecord)
    (stats : SystemStats) (i : ℕ) (hL : t.length = b.length)
    (h : TableInv t b) :
    TableInv (dispatch c t b stats i).1 (dispatch c t b stats i).2.1 := by
  unfold dispatch
  match c with
  | 0 => exact handleKill_tableInv t b stats i h
  | 1 => exact handleSwapOut_tableInv t b stats i hL h
  | 2 => exact handleSwapIn_tableInv t b stats i hL h
  | 3 => exact handleSuspend_tableInv t b stats i h
  | 4 => exact handleResume_tableInv t b stats i h
  | 5 => exact handleReniceIncrease_tableInv t b stats i h
  | 6 => exact handleReniceDecrease_tableInv t b stats i h
  | (n + 7) => exact h

theorem handlerLoop_lengths (stats : SystemStats) (a : List ℕ)
    (idxs : List ℕ) (t b : List ProcessRecord) (acc : ℚ) :
    (handlerLoop stats a idxs t b acc).1.length = t.length ∧
      (handlerLoop stats a idxs t b acc).2.1.length = b.length := by
  induction idxs generalizing t b acc with
  | nil => exact ⟨rfl, rfl⟩
  | cons i rest ih =>
    have hd := dispatch_lengths (a.getD i 0) t b stats i
    have := ih (dispatch (a.getD i 0) t b stats i).1
      (dispatch (a.getD i 0) t b stats i).2.1
      (acc + (dispatch (a.getD i 0) t b stats i).2.2)
    exact ⟨this.1.trans hd.1, this.2.trans hd.2⟩

theorem handlerLoop_tableInv (stats : SystemStats) (a : List ℕ)
    (idxs : List ℕ) (t b : List ProcessRecord) (acc : ℚ)
    (hL : t.length = b.length) (h : TableInv t b) :
    TableInv (handlerLoop stats a idxs t b acc).1
      (handlerLoop stats a idxs t b acc).2.1 := by
  induction idxs generalizing t b acc with
  | nil => exact h
  | cons i rest ih =>
    have hd := dispatch_lengths (a.getD i 0) t b stats i
    exact ih (dispatch (a.getD i 0) t b stats i).1
      (dispatch (a.getD i 0) t b stats i).2.1
      (acc + (dispatch (a.getD i 0) t b stats i).2.2)
      (hd.1.trans (hL.trans hd.2.symm))
      (dispatch_tableInv (a.getD i 0) t b stats i hL h)

/-! ### Invariant preservation through the dynamics pass -/

theorem bounded_of_vals_eq {g g' : RStream} (h : g'.vals = g.vals)
    (hg : g.Bounded) : g'.Bounded := by
  intro n
  rw [h]
  exact hg n

theorem tableInv_backup_zero {t b : List ProcessRecord} (h : TableInv t b)
    {j : ℕ} (hj : (t.getD j zeroRec).state ≠ 3/10) :
    b.getD j zeroRec = zeroRec := by
  by_contra hb
  exact hj ((h j).backupIff.mp hb)

theorem dynDeath_lengths (t : List ProcessRecord) (i : ℕ) (g : RStream) :
    (dynDeath t i g).1.length = t.length := by
  unfold dynDeath
  dsimp only
  split <;> simp

theorem dynDeath_tableInv {t b : List ProcessRecord} {i : ℕ} (g : RStream)
    (h : TableInv t b) (hb : b.getD i zeroRec = zeroRec) :
    TableInv (dynDeath t i g).1 b := by
  unfold dynDeath
  dsimp only
  split
  · intro j
    rcases eq_or_ne i j with rfl | hj
    · by_cases hi : i < t.length
      · rw [getD_set_self _ _ hi, hb]
        exact slotInv_zero
      · rw [set_oob _ hi]
        exact h i
    · rw [getD_set_ne _ _ hj]
      exact h j
  · exact h

theorem dynamicsSlot_lengths (t : List ProcessRecord) (i : ℕ) (g : RStream) :
    (dynamicsSlot t i g).1.length = t.length := by
  unfold dynamicsSlot
  dsimp only
  split
  · split <;> rw [dynDeath_lengths] <;> simp
  · rfl

theorem dynamicsSlot_tableInv {t b : List ProcessRecord} (i : ℕ)
    (g : RStream) (h : TableInv t b) :
    TableInv (dynamicsSlot t i g).1 b := by
  unfold dynamicsSlot
  dsimp only
  split
  · rename_i hrun
    have hi : i < t.length := by
      by_contra hi
      rw [getD_oob _ hi] at hrun
      norm_num [zeroRec] at hrun
    have hr := h i
    have hb0 : b.getD i zeroRec = zeroRec :=
      tableInv_backup_zero h (by rw [hrun]; norm_num)
    have hmid : ∀ ram2 : ℚ, unitI ram2 →
        TableInv ((t.set i ⟨(t.getD i zeroRec).ram,
          clip ((t.getD i zeroRec).cpu + (randUniform (-(1/20)) (1/20) g).1)
            (1/100) (19/20), (t.getD i zeroRec).priority,
          (t.getD i zeroRec).state⟩).set i
          ⟨ram2, ((t.set i ⟨(t.getD i zeroRec).ram,
            clip ((t.getD i zeroRec).cpu + (randUniform (-(1/20)) (1/20) g).1)
              (1/100) (19/20), (t.getD i zeroRec).priority,
            (t.getD i zeroRec).state⟩).getD i zeroRec).cpu,
          (t.getD i zeroRec).priority, (t.getD i zeroRec).state⟩) b := by
      intro ram2 hram2
      intro j
      rcases eq_or_ne i j with rfl | hj
      · have hi1 : i < (t.set i ⟨(t.getD i zeroRec).ram,
            clip ((t.getD i zeroRec).cpu + (randUniform (-(1/20)) (1/20) g).1)
              (1/100) (19/20), (t.getD i zeroRec).priority,
            (t.getD i zeroRec).state⟩).length := by
          simpa using hi
        rw [getD_set_self _ _ hi1, getD_set_self _ _ hi, hb0]
        refine ⟨hram2, ⟨?_, ?_⟩, hr.prio01, Or.inr (Or.inr (Or.inr hrun)),
          ?_, ?_, ⟨le_refl 0, by norm_num [zeroRec]⟩,
          ⟨le_refl 0, by norm_num [zeroRec]⟩,
          ⟨le_refl 0, by norm_num [zeroRec]⟩, ?_⟩
        · exact le_trans (by norm_num) (lo_le_clip _ (by norm_num))
        · exact le_trans (clip_le_hi _ _ _) (by norm_num)
        · intro hbad; rw [hrun] at hbad; norm_num at hbad
        · intro hbad; rw [hrun] at hbad; norm_num at hbad
        · constructor
          · intro hbad; exact absurd rfl hbad
          · intro hbad; rw [hrun] at hbad; norm_num at hbad
      · rw [getD_set_ne _ _ hj, getD_set_ne _ _ hj]
        exact h j
    split
    · refine dynDeath_tableInv _ (hmid _ ?_) hb0
      exact ⟨lo_le_clip _ (by norm_num), clip_le_hi _ _ _⟩
    · refine dynDeath_tableInv _ (hmid _ ?_) hb0
      constructor
      · exact le_trans (by norm_num) (lo_le_clip _ (by norm_num))
      · exact le_trans (clip_le_hi _ _ _) (by norm_num)
  · exact h

theorem dynamicsLoop_lengths (idxs : List ℕ) (t : List ProcessRecord)
    (g : RStream) : (dynamicsLoop idxs t g).1.length = t.length := by
  induction idxs generalizing t g with
  | nil => rfl
  | cons i rest ih =>
    show (dynamicsLoop rest (dynamicsSlot t i g).1 (dynamicsSlot t i g).2).1.length = _
    rw [ih, dynamicsSlot_lengths]

theorem dynamicsLoop_tableInv (idxs : List ℕ) {t b : List ProcessRecord}
    (g : RStream) (h : TableInv t b) : TableInv (dynamicsLoop idxs t g).1 b := by
  induction idxs generalizing t g with
  | nil => exact h
  | cons i rest ih =>
    exact ih (dynamicsSlot t i g).2 (dynamicsSlot_tableInv i g h)

/-! ### Invariant preservation through the spawn pass -/

/-- On a bounded stream, `drawTriple` produces a Running record with each
field in its range. -/
theorem drawTriple_mem (r1 r2 r3 : ℚ × ℚ) (h1 : r1.1 ≤ r1.2)
    (h2 : r2.1 ≤ r2.2) (h3 : r3.1 ≤ r3.2) (g : RStream) (hg : g.Bounded) :
    (r1.1 ≤ (drawTriple r1 r2 r3 g).1.ram ∧ (drawTriple r1 r2 r3 g).1.ram ≤ r1.2) ∧
    (r2.1 ≤ (drawTriple r1 r2 r3 g).1.cpu ∧ (drawTriple r1 r2 r3 g).1.cpu ≤ r2.2) ∧
    (r3.1 ≤ (drawTriple r1 r2 r3 g).1.priority ∧
      (drawTriple r1 r2 r3 g).1.priority ≤ r3.2) ∧
    (drawTriple r1 r2 r3 g).1.state = 1 := by
  unfold drawTriple
  dsimp only
  have hg1 : ((randUniform r1.1 r1.2 g).2).Bounded :=
    bounded_of_vals_eq (vals_randUniform _ _ _) hg
  have hg2 : ((randUniform r2.1 r2.2 (randUniform r1.1 r1.2 g).2).2).Bounded :=
    bounded_of_vals_eq (vals_randUniform _ _ _) hg1
  exact ⟨randUniform_val_mem h1 hg, randUniform_val_mem h2 hg1,
    randUniform_val_mem h3 hg2, rfl⟩

theorem slotInv_of_goodInit {r : ProcessRecord} (h : GoodInit r) :
    SlotInv r zeroRec := by
  obtain ⟨h1, h2, h3, h4⟩ := h
  refine ⟨h1, h2, h3, Or.inr (Or.inr (Or.inr h4)), ?_, ?_,
    ⟨le_refl 0, by norm_num [zeroRec]⟩, ⟨le_refl 0, by norm_num [zeroRec]⟩,
    ⟨le_refl 0, by norm_num [zeroRec]⟩, ?_⟩
  · intro hbad; rw [h4] at hbad; norm_num at hbad
  · intro hbad; rw [h4] at hbad; norm_num at hbad
  · constructor
    · intro hbad; exact absurd rfl hbad
    · intro hbad; rw [h4] at hbad; norm_num at hbad

theorem goodInit_drawTriple {r1 r2 r3 : ℚ × ℚ} (h1 : 0 ≤ r1.1)
    (h1' : r1.1 ≤ r1.2) (h1'' : r1.2 ≤ 1) (h2 : 0 ≤ r2.1) (h2' : r2.1 ≤ r2.2)
    (h2'' : r2.2 ≤ 1) (h3 : 0 ≤ r3.1) (h3' : r3.1 ≤ r3.2) (h3'' : r3.2 ≤ 1)
    (g : RStream) (hg : g.Bounded) : GoodInit (drawTriple r1 r2 r3 g).1 := by
  obtain ⟨hr, hc, hp, hs⟩ := drawTriple_mem r1 r2 r3 h1' h2' h3' g hg
  exact ⟨⟨le_trans h1 hr.1, le_trans hr.2 h1''⟩,
    ⟨le_trans h2 hc.1, le_trans hc.2 h2''⟩,
    ⟨le_trans h3 hp.1, le_trans hp.2 h3''⟩, hs⟩

theorem goodInit_spawnDraw (g : RStream) (hg : g.Bounded) :
    GoodInit (spawnDraw g).1 := by
  unfold spawnDraw
  dsimp only
  have hg0 : ((nextQ g).2).Bounded := bounded_of_vals_eq (vals_nextQ g) hg
  rcases h : profileFromRoll (nextQ g).1 with _ | _ | _ | _ <;> simp only [h] <;>
    exact goodInit_drawTriple (by norm_num) (by norm_num) (by norm_num)
      (by norm_num) (by norm_num) (by norm_num) (by norm_num) (by norm_num)
      (by norm_num) _ hg0

theorem spawnSlot_lengths (origT t : List ProcessRecord) (i : ℕ)
    (g : RStream) : (spawnSlot origT t i g).1.length = t.length := by
  unfold spawnSlot
  dsimp only
  split
  · split <;> simp
  · rfl

theorem spawnSlot_tableInv {origT t b : List ProcessRecord} (i : ℕ)
    {g : RStream} (hg : g.Bounded) (h : TableInv t b)
    (horig : ∀ j, (origT.getD j zeroRec).state = 0 →
      b.getD j zeroRec = zeroRec) :
    TableInv (spawnSlot origT t i g).1 b := by
  unfold spawnSlot
  dsimp only
  split
  · rename_i hkilled
    split
    · intro j
      rcases eq_or_ne i j with rfl | hj
      · by_cases hi : i < t.length
        · rw [getD_set_self _ _ hi, horig i hkilled]
          exact slotInv_of_goodInit (goodInit_spawnDraw _
            (bounded_of_vals_eq (vals_nextQ g) hg))
        · rw [set_oob _ hi]
          exact h i
      · rw [getD_set_ne _ _ hj]
        exact h j
    · exact h
  · exact h

theorem spawnLoop_lengths (origT : List ProcessRecord) (idxs : List ℕ)
    (t : List ProcessRecord) (g : RStream) :
    (spawnLoop origT idxs t g).1.length = t.length := by
  induction idxs generalizing t g with
  | nil => rfl
  | cons i rest ih =>
    show (spawnLoop origT rest (spawnSlot origT t i g).1
      (spawnSlot origT t i g).2).1.length = _
    rw [ih, spawnSlot_lengths]

theorem spawnLoop_tableInv (origT : List ProcessRecord) (idxs : List ℕ)
    {t b : List ProcessRecord} {g : RStream} (hg : g.Bounded)
    (h : TableInv t b)
    (horig : ∀ j, (origT.getD j zeroRec).state = 0 →
      b.getD j zeroRec = zeroRec) :
    TableInv (spawnLoop origT idxs t g).1 b := by
  induction idxs generalizing t g with
  | nil => exact h
  | cons i rest ih =>
    exact ih (bounded_of_vals_eq (vals_spawnSlot origT t i g) hg)
      (spawnSlot_tableInv i hg h horig)

/-! ### The invariant is established by `reset` -/

theorem genRecords_length (gen : Rand ProcessRecord) (n : ℕ) (g : RStream) :
    (genRecords gen n g).1.length = n := by
  induction n generalizing g with
  | zero => rfl
  | succ m ih =>
    show ((gen g).1 :: (genRecords gen m (gen g).2).1).length = m + 1
    rw [List.length_cons, ih]

theorem genRecords_forall (gen : Rand ProcessRecord)
    (P : ProcessRecord → Prop) (hvals : ∀ g, (gen g).2.vals = g.vals)
    (hgen : ∀ g, RStream.Bounded g → P (gen g).1) (n : ℕ) (g : RStream)
    (hg : g.Bounded) : ∀ x ∈ (genRecords gen n g).1, P x := by
  induction n generalizing g with
  | zero => intro x hx; exact absurd hx (List.not_mem_nil x)
  | succ m ih =>
    intro x hx
    rcases List.mem_cons.mp hx with rfl | hx'
    · exact hgen g hg
    · exact ih (gen g).2 (bounded_of_vals_eq (hvals g) hg) x hx'

theorem goodInit_resetHeavy (g : RStream) (hg : g.Bounded) :
    GoodInit (resetHeavy g).1 :=
  goodInit_drawTriple (by norm_num) (by norm_num) (by norm_num) (by norm_num)
    (by norm_num) (by norm_num) (by norm_num) (by norm_num) (by norm_num) g hg

theorem goodInit_resetLeaky (g : RStream) (hg : g.Bounded) :
    GoodInit (resetLeaky g).1 :=
  goodInit_drawTriple (by norm_num) (by norm_num) (by norm_num) (by norm_num)
    (by norm_num) (by norm_num) (by norm_num) (by norm_num) (by norm_num) g hg

theorem goodInit_resetActive (g : RStream) (hg : g.Bounded) :
    GoodInit (resetActive g).1 :=
  goodInit_drawTriple (by norm_num) (by norm_num) (by norm_num) (by norm_num)
    (by norm_num) (by norm_num) (by norm_num) (by norm_num) (by norm_num) g hg

theorem goodInit_resetIdle (g : RStream) (hg : g.Bounded) :
    GoodInit (resetIdle g).1 :=
  goodInit_drawTriple (by norm_num) (by norm_num) (by norm_num) (by norm_num)
    (by norm_num) (by norm_num) (by norm_num) (by norm_num) (by norm_num) g hg

theorem listSwap_length (l : List ProcessRecord) (i j : ℕ) :
    (listSwap l i j).length = l.length := by
  unfold listSwap
  split
  · simp
  · rfl

theorem listSwap_mem (l : List ProcessRecord) (i j : ℕ)
    (x : ProcessRecord) (hx : x ∈ listSwap l i j) : x ∈ l := by
  unfold listSwap at hx
  split at hx
  · rename_i a c ha hc
    rcases List.mem_or_eq_of_mem_set hx with hx' | rfl
    · rcases List.mem_or_eq_of_mem_set hx' with hx'' | rfl
      · exact hx''
      · exact List.get?_mem hc
    · exact List.get?_mem ha
  · exact hx

theorem shuffleAux_length (l : List ProcessRecord) (n : ℕ) (g : RStream) :
    (shuffleAux l n g).1.length = l.length := by
  induction n generalizing l g with
  | zero => rfl
  | succ m ih =>
    show (shuffleAux (listSwap l (m + 1) _) m _).1.length = _
    rw [ih, listSwap_length]

theorem shuffleAux_mem (l : List ProcessRecord) (n : ℕ) (g : RStream)
    (x : ProcessRecord) (hx : x ∈ (shuffleAux l n g).1) : x ∈ l := by
  induction n generalizing l g with
  | zero => exact hx
  | succ m ih =>
    exact listSwap_mem _ _ _ _ (ih _ _ hx)

theorem shuffleList_length (l : List ProcessRecord) (g : RStream) :
    (shuffleList l g).1.length = l.length := by
  unfold shuffleList
  rcases hlen : l.length with _ | n
  · exact hlen
  · rw [shuffleAux_length, hlen]

theorem shuffleList_mem (l : List ProcessRecord) (g : RStream)
    (x : ProcessRecord) (hx : x ∈ (shuffleList l g).1) : x ∈ l := by
  unfold shuffleList at hx
  rcases hlen : l.length with _ | n
  · rw [hlen] at hx; exact hx
  · rw [hlen] at hx; exact shuffleAux_mem _ _ _ _ hx

theorem randIntBelow_le (n : ℕ) (g : RStream) :
    (randIntBelow n g).1 ≤ n - 1 := by
  unfold randIntBelow
  dsimp only
  exact min_le_right _ _

theorem getD_replicate_zeroRec (k j : ℕ) :
    (List.replicate k zeroRec).getD j zeroRec = zeroRec := by
  rcases Nat.lt_or_ge j k with h | h
  · rw [List.getD_eq_getElem _ _ (by simpa using h)]
    simp
  · rw [List.getD_eq_default]
    simpa using h

theorem slotInv_getD_of_forall {t : List ProcessRecord} (k : ℕ)
    (h : ∀ x ∈ t, GoodInit x) (j : ℕ) :
    SlotInv (t.getD j zeroRec) ((List.replicate k zeroRec).getD j zeroRec) := by
  rw [getD_replicate_zeroRec]
  by_cases hj : j < t.length
  · exact slotInv_of_goodInit (h _ (getD_mem zeroRec hj))
  · rw [getD_oob _ hj]
    exact slotInv_zero

/-- On a bounded stream, any state `reset` actually returns satisfies the
environment invariant. -/
theorem resetFn_envInv {sigma : ℚ → ℚ} {k : ℕ} {seed : Option ℕ}
    {g : RStream} {s : EnvState} (hg : g.Bounded)
    (h : (resetFn sigma k seed g).1 = some s) : EnvInv s := by
  revert h
  unfold resetFn
  dsimp only
  split
  · intro h
    simp at h
  · rename_i hcount
    intro h
    rw [Option.some_inj] at h
    subst h
    rw [not_lt] at hcount
    set g1 := (randIntBelow 2 g).2 with hg1def
    set g2 := (randIntBelow 2 g1).2 with hg2def
    set hc := (randIntBelow 2 g).1 with hcdef
    set lc := (randIntBelow 2 g1).1 with lcdef
    set ac := (randIntBelow (k - hc - lc + 1) g2).1 with acdef
    set g3 := (randIntBelow (k - hc - lc + 1) g2).2 with hg3def
    have hb1 : g1.Bounded := bounded_of_vals_eq (vals_randIntBelow _ _) hg
    have hb2 : g2.Bounded := bounded_of_vals_eq (vals_randIntBelow _ _) hb1
    have hb3 : g3.Bounded := bounded_of_vals_eq (vals_randIntBelow _ _) hb2
    have hb4 : ((genRecords resetHeavy hc g3).2).Bounded :=
      bounded_of_vals_eq (vals_genRecords _ (vals_drawTriple _ _ _) _ _) hb3
    have hb5 : ((genRecords resetLeaky lc
        (genRecords resetHeavy hc g3).2).2).Bounded :=
      bounded_of_vals_eq (vals_genRecords _ (vals_drawTriple _ _ _) _ _) hb4
    have hb6 : ((genRecords resetActive ac (genRecords resetLeaky lc
        (genRecords resetHeavy hc g3).2).2).2).Bounded :=
      bounded_of_vals_eq (vals_genRecords _ (vals_drawTriple _ _ _) _ _) hb5
    have hac : ac ≤ k - hc - lc := by
      have := randIntBelow_le (k - hc - lc + 1) g2
      omega
    have hbaseLen : ((genRecords resetHeavy hc g3).1 ++
        (genRecords resetLeaky lc (genRecords resetHeavy hc g3).2).1 ++
        (genRecords resetActive ac (genRecords resetLeaky lc
          (genRecords resetHeavy hc g3).2).2).1).length = hc + lc + ac := by
      simp [genRecords_length]
      omega
    have hgoodBase : ∀ x ∈ (genRecords resetHeavy hc g3).1 ++
        (genRecords resetLeaky lc (genRecords resetHeavy hc g3).2).1 ++
        (genRecords resetActive ac (genRecords resetLeaky lc
          (genRecords resetHeavy hc g3).2).2).1, GoodInit x := by
      intro x hx
      rcases List.mem_append.mp hx with hx' | hxa
      · rcases List.mem_append.mp hx' with hxh | hxl
        · exact genRecords_forall _ _ (vals_drawTriple _ _ _)
            goodInit_resetHeavy _ _ hb3 x hxh
        · exact genRecords_forall _ _ (vals_drawTriple _ _ _)
            goodInit_resetLeaky _ _ hb4 x hxl
      · exact genRecords_forall _ _ (vals_drawTriple _ _ _)
          goodInit_resetActive _ _ hb5 x hxa
    refine ⟨?_, ?_, ?_⟩
    · show ((shuffleList _ _).1).length = k
      rw [shuffleList_length, List.length_append, hbaseLen,
        genRecords_length]
      omega
    · exact List.length_replicate _ _
    · intro j
      apply slotInv_getD_of_forall
      intro x hx
      have hx' := shuffleList_mem _ _ _ hx
      rcases List.mem_append.mp hx' with hxb | hxi
      · exact hgoodBase _ hxb
      · exact genRecords_forall _ _ (vals_drawTriple _ _ _)
          goodInit_resetIdle _ _ hb6 _ hxi

/-! ### The invariant is preserved by `step` and holds in all reachable
states -/

theorem stepFn_envInv {sigma : ℚ → ℚ} {s : EnvState} {a : List ℕ}
    {g : RStream} (hg : g.Bounded) (hinv : EnvInv s) :
    EnvInv (stepFn sigma s a g).1.1 := by
  obtain ⟨hlt, hlb, hti⟩ := hinv
  unfold stepFn
  dsimp only
  have hL : s.processTable.length = s.swappedProcesses.length := by
    rw [hlt, hlb]
  have h1 := handlerLoop_lengths s.systemStats a (List.range s.k)
    s.processTable s.swappedProcesses 0
  have hti1 := handlerLoop_tableInv s.systemStats a (List.range s.k)
    s.processTable s.swappedProcesses 0 hL hti
  have hti2 := dynamicsLoop_tableInv (List.range s.k) g hti1
  have hg1 : ((dynamicsLoop (List.range s.k)
      (handlerLoop s.systemStats a (List.range s.k) s.processTable
        s.swappedProcesses 0).1 g).2).Bounded :=
    bounded_of_vals_eq (vals_dynamicsLoop _ _ _) hg
  have hti3 := spawnLoop_tableInv _ (List.range s.k) hg1 hti2
    (fun j hj => tableInv_backup_zero hti2 (by rw [hj]; norm_num))
  refine ⟨?_, ?_, hti3⟩
  · show ((spawnPass s.k _ _).1).length = s.k
    unfold spawnPass
    rw [spawnLoop_lengths, dynamicsLoop_lengths, h1.1, hlt]
  · rw [h1.2, hlb]

/-- All reachable states satisfy the environment invariant. -/
theorem envInv_of_reachable {sigma : ℚ → ℚ} {s : EnvState}
    (h : Reachable sigma s) : EnvInv s := by
  induction h with
  | reset k seed g s hg hr => exact resetFn_envInv hg hr
  | step s a g s' hs hg hlen hcodes heq ih =>
    exact heq ▸ stepFn_envInv hg ih

/-! ### Claim theorems -/

/-- C3: for a Swapped slot, if the step-start `ram_usage` plus the backed-up
RAM exceeds 1.0 the swap-in handler returns −10 and changes nothing
(record and backup kept); otherwise it restores (ram, cpu, priority) from
the backup with state Running, clears the backup, and returns
`backup.priority × 5`, minus 15 if the predicted `ram_usage` is ≥ 0.8.
On a slot that is not Swapped it returns −2 and changes nothing. -/
theorem swapIn_spec (t b : List ProcessRecord) (stats : SystemStats)
    (i : ℕ) :
    ((t.getD i zeroRec).state = 3/10 ∧
        stats.ramUsage + (b.getD i zeroRec).ram > 1 →
      handleSwapIn t b stats i = (t, b, -10)) ∧
    ((t.getD i zeroRec).state = 3/10 ∧
        ¬ stats.ramUsage + (b.getD i zeroRec).ram > 1 →
      handleSwapIn t b stats i =
        (t.set i ⟨(b.getD i zeroRec).ram, (b.getD i zeroRec).cpu,
          (b.getD i zeroRec).priority, 1⟩, b.set i zeroRec,
          (b.getD i zeroRec).priority * 5 -
            (if stats.ramUsage + (b.getD i zeroRec).ram ≥ 4/5 then 15
              else 0))) ∧
    ((t.getD i zeroRec).state ≠ 3/10 →
      handleSwapIn t b stats i = (t, b, -2)) := by
  refine ⟨?_, ?_, ?_⟩
  · rintro ⟨h1, h2⟩
    unfold handleSwapIn
    dsimp only
    rw [if_neg (not_not_intro h1), if_pos h2]
  · rintro ⟨h1, h2⟩
    unfold handleSwapIn
    dsimp only
    rw [if_neg (not_not_intro h1), if_neg h2]
  · intro h1
    unfold handleSwapIn
    dsimp only
    rw [if_pos h1]

/-- Witness for C3: the three branches at concrete inputs (step-start
`ram_usage` 0.6; a rejecting backup of RAM 0.5, an accepted backup of RAM
0.2 with priority 0.8, and a Running slot). -/
theorem swapIn_spec_witness :
    (handleSwapIn [⟨0, 0, 1/2, 3/10⟩] [⟨1/2, 1/5, 4/5, 1⟩]
        ⟨3/5, 0, 0, 0, 0⟩ 0 =
      ([⟨0, 0, 1/2, 3/10⟩], [⟨1/2, 1/5, 4/5, 1⟩], -10)) ∧
    (handleSwapIn [⟨0, 0, 1/2, 3/10⟩] [⟨1/5, 1/10, 4/5, 1⟩]
        ⟨3/5, 0, 0, 0, 0⟩ 0 =
      (([⟨0, 0, 1/2, 3/10⟩] : List ProcessRecord).set 0
          ⟨(([⟨1/5, 1/10, 4/5, 1⟩] : List ProcessRecord).getD 0 zeroRec).ram,
            (([⟨1/5, 1/10, 4/5, 1⟩] : List ProcessRecord).getD 0 zeroRec).cpu,
            (([⟨1/5, 1/10, 4/5, 1⟩] : List ProcessRecord).getD 0 zeroRec).priority,
            1⟩,
        ([⟨1/5, 1/10, 4/5, 1⟩] : List ProcessRecord).set 0 zeroRec,
        (([⟨1/5, 1/10, 4/5, 1⟩] : List ProcessRecord).getD 0 zeroRec).priority
            * 5 -
          (if (⟨3/5, 0, 0, 0, 0⟩ : SystemStats).ramUsage +
            (([⟨1/5, 1/10, 4/5, 1⟩] : List ProcessRecord).getD 0 zeroRec).ram
              ≥ 4/5 then 15 else 0))) ∧
    (handleSwapIn [⟨1/2, 0, 0, 1⟩] [zeroRec] ⟨3/5, 0, 0, 0, 0⟩ 0 =
      ([⟨1/2, 0, 0, 1⟩], [zeroRec], -2)) :=
  ⟨(swapIn_spec _ _ _ 0).1 ⟨rfl, by norm_num⟩,
   (swapIn_spec _ _ _ 0).2.1 ⟨rfl, by norm_num⟩,
   (swapIn_spec _ _ _ 0).2.2 (by norm_num)⟩

/-- C7: on a slot that is not Killed, has priority < 0.95 and a
non-negative priority, renice-increase sets the priority to
`min(priority + 0.2, 1.0)` and rewards +10 if cpu > 0.5, else −8 if the old
priority < 0.2 and ram < 0.1, else 0; at or above the 0.95 cap it returns −2
with nothing changed; on a Killed slot it returns −5 with nothing
changed. -/
theorem reniceIncrease_spec (t b : List ProcessRecord) (stats : SystemStats)
    (i : ℕ) :
    ((t.getD i zeroRec).state ≠ 0 ∧ (t.getD i zeroRec).priority < 19/20 ∧
        0 ≤ (t.getD i zeroRec).priority →
      handleReniceIncrease t b stats i =
        (t.set i ⟨(t.getD i zeroRec).ram, (t.getD i zeroRec).cpu,
          min ((t.getD i zeroRec).priority + 1/5) 1,
          (t.getD i zeroRec).state⟩, b,
          if (t.getD i zeroRec).cpu > 1/2 then 10
          else if (t.getD i zeroRec).priority < 1/5 ∧
            (t.getD i zeroRec).ram < 1/10 then -8
          else 0)) ∧
    ((t.getD i zeroRec).state ≠ 0 ∧ (t.getD i zeroRec).priority ≥ 19/20 →
      handleReniceIncrease t b stats i = (t, b, -2)) ∧
    ((t.getD i zeroRec).state = 0 →
      handleReniceIncrease t b stats i = (t, b, -5)) := by
  refine ⟨?_, ?_, ?_⟩
  · rintro ⟨h1, h2, h3⟩
    unfold handleReniceIncrease
    dsimp only
    rw [if_neg h1, if_neg (not_le.mpr h2)]
    have hclip : clip ((t.getD i zeroRec).priority + 1/5) 0 1 =
        min ((t.getD i zeroRec).priority + 1/5) 1 := by
      unfold clip
      rw [max_eq_left (by linarith)]
    rw [hclip]
  · rintro ⟨h1, h2⟩
    unfold handleReniceIncrease
    dsimp only
    rw [if_neg h1, if_pos h2]
  · intro h1
    unfold handleReniceIncrease
    dsimp only
    rw [if_pos h1]

/-- Witness for C7: the three branches at concrete inputs, including the
claim scenario of a slot at priority 0.97 (reward −2, priority
unchanged). -/
theorem reniceIncrease_spec_witness :
    (handleReniceIncrease [⟨1/20, 3/5, 1/10, 1⟩] [zeroRec]
        ⟨0, 0, 0, 0, 0⟩ 0 =
      (([⟨1/20, 3/5, 1/10, 1⟩] : List ProcessRecord).set 0
          ⟨(([⟨1/20, 3/5, 1/10, 1⟩] : List ProcessRecord).getD 0 zeroRec).ram,
            (([⟨1/20, 3/5, 1/10, 1⟩] : List ProcessRecord).getD 0 zeroRec).cpu,
            min ((([⟨1/20, 3/5, 1/10, 1⟩] :
              List ProcessRecord).getD 0 zeroRec).priority + 1/5) 1,
            (([⟨1/20, 3/5, 1/10, 1⟩] :
              List ProcessRecord).getD 0 zeroRec).state⟩, [zeroRec],
        if (([⟨1/20, 3/5, 1/10, 1⟩] :
            List ProcessRecord).getD 0 zeroRec).cpu > 1/2 then 10
        else if (([⟨1/20, 3/5, 1/10, 1⟩] :
            List ProcessRecord).getD 0 zeroRec).priority < 1/5 ∧
          (([⟨1/20, 3/5, 1/10, 1⟩] :
            List ProcessRecord).getD 0 zeroRec).ram < 1/10 then -8
        else 0)) ∧
    (handleReniceIncrease [⟨1/2, 0, 97/100, 1⟩] [zeroRec]
        ⟨0, 0, 0, 0, 0⟩ 0 = ([⟨1/2, 0, 97/100, 1⟩], [zeroRec], -2)) ∧
    (handleReniceIncrease [zeroRec] [zeroRec] ⟨0, 0, 0, 0, 0⟩ 0 =
      ([zeroRec], [zeroRec], -5)) :=
  ⟨(reniceIncrease_spec _ _ _ 0).1 ⟨by norm_num, by norm_num, by norm_num⟩,
   (reniceIncrease_spec _ _ _ 0).2.1 ⟨by norm_num, by norm_num⟩,
   (reniceIncrease_spec _ _ _ 0).2.2 rfl⟩

/-- The all-zero stream is bounded. -/
theorem gZero_bounded : gZero.Bounded := fun n => ⟨le_refl 0, by norm_num [gZero]⟩

theorem envS0_reset : (resetFn sigZero 1 none gZero).1 = some envS0 := by
  simp [envS0, resetFn, randIntBelow, nextQ, gZero, genRecords, drawTriple,
    randUniform, shuffleList, shuffleAux, computeStats, clip, sumRam, sumCpu,
    sigZero, min_def, max_def, resetHeavy, resetLeaky, resetActive, resetIdle]
  norm_num

theorem envS0_reachable : Reachable sigZero envS0 :=
  Reachable.reset 1 none gZero envS0 gZero_bounded envS0_reset

theorem envS1_step : (stepFn sigZero envS0 [1] gZero).1.1 = envS1 := by
  simp [envS0, envS1, stepFn, handlerLoop, dispatch, handleSwapOut,
    dynamicsLoop, dynamicsSlot, spawnPass, spawnLoop, spawnSlot, nextQ,
    gZero, computeStats, clip, sumRam, sumCpu, sigZero, min_def, max_def,
    List.range_succ, zeroRec]
  norm_num

theorem envS1_reachable : Reachable sigZero envS1 :=
  Reachable.step envS0 [1] gZero envS1 envS0_reachable gZero_bounded rfl
    (by intro c hc; rw [List.mem_singleton] at hc; omega) envS1_step

/-- C10: in any reachable state, killing a Swapped slot returns local reward
−2 (the +20/−10 branches test the in-table record, whose RAM and CPU are 0
for a Swapped slot), zeroes the slot and discards the swap backup. -/
theorem kill_swapped_spec {sigma : ℚ → ℚ} {s : EnvState}
    (h : Reachable sigma s) (i : ℕ)
    (hsw : (s.processTable.getD i zeroRec).state = 3/10) :
    handleKill s.processTable s.swappedProcesses s.systemStats i =
      (s.processTable.set i zeroRec, s.swappedProcesses.set i zeroRec, -2) := by
  have hslot := (envInv_of_reachable h).2.2 i
  obtain ⟨hram0, hcpu0⟩ := hslot.swapZero hsw
  unfold handleKill
  dsimp only
  rw [if_pos (show (s.processTable.getD i zeroRec).state ≠ 0 by
    rw [hsw]; norm_num)]
  rw [if_neg (fun hc => by rw [hram0] at hc; norm_num at hc),
    if_neg (fun hc => by rw [hram0] at hc; norm_num at hc)]

/-- Witness for C10: killing the Swapped slot of the concrete reachable
state `envS1` (backup `[0.01, 0, 0.1, Running]`) rewards −2 and zeroes
slot and backup. -/
theorem kill_swapped_witness :
    handleKill envS1.processTable envS1.swappedProcesses envS1.systemStats 0 =
      (envS1.processTable.set 0 zeroRec,
        envS1.swappedProcesses.set 0 zeroRec, -2) :=
  kill_swapped_spec envS1_reachable 0 rfl

/-- C4: in every reachable state, a slot has a non-zero swap backup iff its
state is Swapped (0.3); reachability closes this under reset, all eight
handlers, the dynamics pass and the spawn pass. -/
theorem backup_iff_swapped_spec {sigma : ℚ → ℚ} {s : EnvState}
    (h : Reachable sigma s) (i : ℕ) :
    (s.swappedProcesses.getD i zeroRec ≠ zeroRec ↔
      (s.processTable.getD i zeroRec).state = 3/10) :=
  ((envInv_of_reachable h).2.2 i).backupIff

/-- Witness for C4 at the reachable state `envS1`, whose slot 0 is Swapped
with a non-zero backup. -/
theorem backup_iff_swapped_witness :
    (envS1.swappedProcesses.getD 0 zeroRec ≠ zeroRec ↔
      (envS1.processTable.getD 0 zeroRec).state = 3/10) :=
  backup_iff_swapped_spec envS1_reachable 0

/-- C5: in every reachable state, every record field (ram, cpu, priority)
lies in `[0, 1]` and the state field is one of `{1.0, 0.6, 0.3, 0.0}`. -/
theorem record_bounds_spec {sigma : ℚ → ℚ} {s : EnvState}
    (h : Reachable sigma s) (i : ℕ) :
    (0 ≤ (s.processTable.getD i zeroRec).ram ∧
      (s.processTable.getD i zeroRec).ram ≤ 1) ∧
    (0 ≤ (s.processTable.getD i zeroRec).cpu ∧
      (s.processTable.getD i zeroRec).cpu ≤ 1) ∧
    (0 ≤ (s.processTable.getD i zeroRec).priority ∧
      (s.processTable.getD i zeroRec).priority ≤ 1) ∧
    ((s.processTable.getD i zeroRec).state = 0 ∨
      (s.processTable.getD i zeroRec).state = 3/10 ∨
      (s.processTable.getD i zeroRec).state = 6/10 ∨
      (s.processTable.getD i zeroRec).state = 1) :=
  ⟨((envInv_of_reachable h).2.2 i).ram01,
   ((envInv_of_reachable h).2.2 i).cpu01,
   ((envInv_of_reachable h).2.2 i).prio01,
   ((envInv_of_reachable h).2.2 i).stateEnum⟩

/-- Witness for C5 at the concrete reachable state `envS0`. -/
theorem record_bounds_witness :
    (0 ≤ (envS0.processTable.getD 0 zeroRec).ram ∧
      (envS0.processTable.getD 0 zeroRec).ram ≤ 1) ∧
    (0 ≤ (envS0.processTable.getD 0 zeroRec).cpu ∧
      (envS0.processTable.getD 0 zeroRec).cpu ≤ 1) ∧
    (0 ≤ (envS0.processTable.getD 0 zeroRec).priority ∧
      (envS0.processTable.getD 0 zeroRec).priority ≤ 1) ∧
    ((envS0.processTable.getD 0 zeroRec).state = 0 ∨
      (envS0.processTable.getD 0 zeroRec).state = 3/10 ∨
      (envS0.processTable.getD 0 zeroRec).state = 6/10 ∨
      (envS0.processTable.getD 0 zeroRec).state = 1) :=
  record_bounds_spec envS0_reachable 0

/-- C8: `step` is total on well-formed inputs: for any state and any action
vector of length `k` with all codes in `[0, 7]`, the checked step returns a
result (no exception); and the in-domain invalid actions are penalties that
leave the tables unchanged — killing an already-Killed slot returns −1,
swapping-in a slot that is not Swapped returns −2. -/
theorem step_total_spec (sigma : ℚ → ℚ) (s : EnvState) (a : List ℕ)
    (g : RStream) (t b : List ProcessRecord) (stats : SystemStats) (i : ℕ)
    (hlen : a.length = s.k) (hcodes : ∀ c ∈ a, c < 8) :
    (stepChecked sigma s a g).1.isSome = true ∧
    ((t.getD i zeroRec).state = 0 → handleKill t b stats i = (t, b, -1)) ∧
    ((t.getD i zeroRec).state ≠ 3/10 →
      handleSwapIn t b stats i = (t, b, -2)) := by
  refine ⟨?_, ?_, ?_⟩
  · unfold stepChecked
    rw [if_pos ⟨hlen, hcodes⟩]
    rfl
  · intro h
    unfold handleKill
    dsimp only
    rw [if_neg (not_not_intro h)]
  · intro h
    unfold handleSwapIn
    dsimp only
    rw [if_pos h]

/-- Witness for C8: a checked step on the concrete reset state with a
one-kill action vector succeeds, and the two invalid-action penalties at
concrete slots. -/
theorem step_total_witness :
    (stepChecked sigZero envS0 [0] gZero).1.isSome = true ∧
    (handleKill [zeroRec] [zeroRec] ⟨0, 0, 0, 0, 0⟩ 0 =
      ([zeroRec], [zeroRec], -1)) ∧
    (handleSwapIn [⟨1/2, 0, 0, 1⟩] [zeroRec] ⟨0, 0, 0, 0, 0⟩ 0 =
      ([⟨1/2, 0, 0, 1⟩], [zeroRec], -2)) :=
  ⟨(step_total_spec sigZero envS0 [0] gZero [zeroRec] [zeroRec]
      ⟨0, 0, 0, 0, 0⟩ 0 rfl
      (by intro c hc; rw [List.mem_singleton] at hc; omega)).1,
   (step_total_spec sigZero envS0 [0] gZero [zeroRec] [zeroRec]
      ⟨0, 0, 0, 0, 0⟩ 0 rfl
      (by intro c hc; rw [List.mem_singleton] at hc; omega)).2.1 rfl,
   (step_total_spec sigZero envS0 [0] gZero [⟨1/2, 0, 0, 1⟩] [zeroRec]
      ⟨0, 0, 0, 0, 0⟩ 0 rfl
      (by intro c hc; rw [List.mem_singleton] at hc; omega)).2.2
      (by norm_num)⟩

/-- C6: a step reports `terminated = true` exactly when the end-of-step
recomputed `ram_usage`, `clip(Σ ram + 0.10, 0, 1)` over the final table, is
≥ 1.0 — never on a step where that value is below 1.0. -/
theorem step_terminated_spec (sigma : ℚ → ℚ) (s : EnvState) (a : List ℕ)
    (g : RStream) :
    ((stepFn sigma s a g).1.2.2 = true ↔
      1 ≤ clip (sumRam (stepFn sigma s a g).1.1.processTable + 1/10) 0 1) := by
  unfold stepFn computeStats
  dsimp only
  rw [decide_eq_true_iff]

theorem getD_replicate_nat {k i : ℕ} (v : ℕ) (h : i < k) :
    (List.replicate k v).getD i 0 = v := by
  rw [List.getD_eq_getElem _ _ (by simpa using h)]
  simp

/-- A handler loop all of whose looked-up action codes are 7 dispatches only
`handleNoop`: tables and accumulator pass through unchanged. -/
theorem handlerLoop_noop (stats : SystemStats) (a : List ℕ) (idxs : List ℕ)
    (t b : List ProcessRecord) (acc : ℚ)
    (hall : ∀ i ∈ idxs, a.getD i 0 = 7) :
    handlerLoop stats a idxs t b acc = (t, b, acc) := by
  induction idxs generalizing t b acc with
  | nil => rfl
  | cons i rest ih =>
    show handlerLoop stats a rest (dispatch (a.getD i 0) t b stats i).1
      (dispatch (a.getD i 0) t b stats i).2.1
      (acc + (dispatch (a.getD i 0) t b stats i).2.2) = (t, b, acc)
    rw [hall i (List.mem_cons_self i rest)]
    show handlerLoop stats a rest t b (acc + 0) = (t, b, acc)
    rw [add_zero]
    exact ih t b acc (fun j hj => hall j (List.mem_cons_of_mem i hj))

/-- C9: a step whose action vector is all No-op (code 7) gets 0 local
reward from every handler and leaves table and swap backups untouched by
the handler phase; the resulting table is exactly the dynamics pass followed
by the spawn pass applied to the original table, the backups are returned
unchanged, and the step reward is exactly the global reward of the final
table. -/
theorem noop_frame_spec (sigma : ℚ → ℚ) (s : EnvState) (g : RStream) :
    handlerLoop s.systemStats (List.replicate s.k 7) (List.range s.k)
        s.processTable s.swappedProcesses 0 =
      (s.processTable, s.swappedProcesses, 0) ∧
    (stepFn sigma s (List.replicate s.k 7) g).1.1.swappedProcesses =
      s.swappedProcesses ∧
    (stepFn sigma s (List.replicate s.k 7) g).1.1.processTable =
      (spawnPass s.k (dynamicsLoop (List.range s.k) s.processTable g).1
        (dynamicsLoop (List.range s.k) s.processTable g).2).1 ∧
    (stepFn sigma s (List.replicate s.k 7) g).1.2.1 =
      globalReward (computeStats sigma
        (spawnPass s.k (dynamicsLoop (List.range s.k) s.processTable g).1
          (dynamicsLoop (List.range s.k) s.processTable g).2).1)
        (spawnPass s.k (dynamicsLoop (List.range s.k) s.processTable g).1
          (dynamicsLoop (List.range s.k) s.processTable g).2).1 := by
  have hframe := handlerLoop_noop s.systemStats (List.replicate s.k 7)
    (List.range s.k) s.processTable s.swappedProcesses 0
    (fun i hi => getD_replicate_nat 7 (List.mem_range.mp hi))
  refine ⟨hframe, ?_, ?_, ?_⟩ <;>
    · unfold stepFn
      rw [hframe]
      try dsimp only
      try rw [zero_add]

/-- On a bounded stream, the spawn draw yields a Running record whose
fields lie in the ranges of its chosen profile (leaky RAM in
`[0.3, 0.5]`). -/
theorem spawnDraw_ranges (g : RStream) (hg : g.Bounded) :
    SpawnRanges (spawnDraw g).1 := by
  unfold spawnDraw
  dsimp only
  have hg0 : ((nextQ g).2).Bounded := bounded_of_vals_eq (vals_nextQ g) hg
  rcases h : profileFromRoll (nextQ g).1 with _ | _ | _ | _ <;> simp only [h]
  · obtain ⟨hr, hc, hp, hs⟩ := drawTriple_mem (1/100, 1/20) (0, 1/50)
      (1/10, 2/5) (by norm_num) (by norm_num) (by norm_num) _ hg0
    exact ⟨hs, Or.inl ⟨hr.1, hr.2, hc.1, hc.2, hp.1, hp.2⟩⟩
  · obtain ⟨hr, hc, hp, hs⟩ := drawTriple_mem (1/10, 2/5) (1/5, 1/2)
      (2/5, 7/10) (by norm_num) (by norm_num) (by norm_num) _ hg0
    exact ⟨hs, Or.inr (Or.inl ⟨hr.1, hr.2, hc.1, hc.2, hp.1, hp.2⟩)⟩
  · obtain ⟨hr, hc, hp, hs⟩ := drawTriple_mem (2/5, 3/5) (3/5, 9/10)
      (7/10, 1) (by norm_num) (by norm_num) (by norm_num) _ hg0
    exact ⟨hs, Or.inr (Or.inr (Or.inl ⟨hr.1, hr.2, hc.1, hc.2, hp.1, hp.2⟩))⟩
  · obtain ⟨hr, hc, hp, hs⟩ := drawTriple_mem (3/10, 1/2) (0, 1/20) (0, 1/5)
      (by norm_num) (by norm_num) (by norm_num) _ hg0
    exact ⟨hs, Or.inr (Or.inr (Or.inr ⟨hr.1, hr.2, hc.1, hc.2, hp.1, hp.2⟩))⟩

/-- One spawn-slot either leaves slot `i` unchanged or (only when slot `i`
itself was Killed at pass start) respawns it within the profile ranges. -/
theorem spawnSlot_getD (origT t : List ProcessRecord) (j : ℕ) (g : RStream)
    (hg : g.Bounded) (i : ℕ) :
    (spawnSlot origT t j g).1.getD i zeroRec = t.getD i zeroRec ∨
    (i = j ∧ (origT.getD i zeroRec).state = 0 ∧
      SpawnRanges ((spawnSlot origT t j g).1.getD i zeroRec)) := by
  unfold spawnSlot
  dsimp only
  split
  · rename_i h0
    split
    · rcases eq_or_ne i j with rfl | hij
      · by_cases hi : i < t.length
        · right
          refine ⟨rfl, h0, ?_⟩
          rw [getD_set_self _ _ hi]
          exact spawnDraw_ranges _ (bounded_of_vals_eq (vals_nextQ g) hg)
        · left
          rw [set_oob _ hi]
      · left
        exact getD_set_ne _ _ (Ne.symm hij)
    · left; rfl
  · left; rfl

theorem spawnLoop_getD (origT : List ProcessRecord) (idxs : List ℕ)
    (t : List ProcessRecord) (g : RStream) (hg : g.Bounded) (i : ℕ) :
    ((origT.getD i zeroRec).state ≠ 0 →
      (spawnLoop origT idxs t g).1.getD i zeroRec = t.getD i zeroRec) ∧
    ((spawnLoop origT idxs t g).1.getD i zeroRec = t.getD i zeroRec ∨
      ((origT.getD i zeroRec).state = 0 ∧
        SpawnRanges ((spawnLoop origT idxs t g).1.getD i zeroRec))) := by
  induction idxs generalizing t g with
  | nil => exact ⟨fun _ => rfl, Or.inl rfl⟩
  | cons j rest ih =>
    have hg' : ((spawnSlot origT t j g).2).Bounded :=
      bounded_of_vals_eq (vals_spawnSlot origT t j g) hg
    have hstep :
        spawnLoop origT (j :: rest) t g =
          spawnLoop origT rest (spawnSlot origT t j g).1
            (spawnSlot origT t j g).2 := rfl
    rw [hstep]
    rcases spawnSlot_getD origT t j g hg i with heq | ⟨rfl, h0, hsp⟩
    · constructor
      · intro hne
        rw [(ih _ _ hg').1 hne, heq]
      · rcases (ih _ _ hg').2 with h | ⟨h0, hsp⟩
        · exact Or.inl (h.trans heq)
        · exact Or.inr ⟨h0, hsp⟩
    · constructor
      · intro hne
        exact absurd h0 hne
      · rcases (ih _ _ hg').2 with h | ⟨h0', hsp'⟩
        · exact Or.inr ⟨h0, by rw [h]; exact hsp⟩
        · exact Or.inr ⟨h0', hsp'⟩

/-- C1 (amended): during the spawn pass, a slot that was not Killed is left
unchanged, and a Killed slot is either left unchanged (the 5% roll failed)
or respawned as a Running record whose fields lie in its profile's ranges —
with the leaky profile's RAM drawn from `[0.3, 0.5]`, not the reset-time
`[0.6, 0.8]`. -/
theorem spawn_respawn_spec (k : ℕ) (t : List ProcessRecord) (g : RStream)
    (hg : g.Bounded) (i : ℕ) :
    ((t.getD i zeroRec).state ≠ 0 →
      (spawnPass k t g).1.getD i zeroRec = t.getD i zeroRec) ∧
    ((spawnPass k t g).1.getD i zeroRec = t.getD i zeroRec ∨
      ((t.getD i zeroRec).state = 0 ∧
        SpawnRanges ((spawnPass k t g).1.getD i zeroRec))) :=
  spawnLoop_getD t (List.range k) t g hg i

/-- Counterexample to C1 as stated: on a concrete stream the spawn pass
respawns a Killed slot with the leaky profile (choice roll 0.96) and RAM
0.4 — outside the claimed reset-time leaky range `[0.6, 0.8]`. -/
theorem spawn_leaky_range_cex :
    profileFromRoll (24/25) = Profile.leaky ∧
    (spawnPass 1 [zeroRec]
        ⟨fun n => if n = 1 then 24/25 else if n = 2 then 1/2 else 0, 0⟩).1.getD
      0 zeroRec = ⟨2/5, 0, 0, 1⟩ ∧
    ¬ (3/5 ≤ (2/5 : ℚ)) := by
  refine ⟨?_, ?_, by norm_num⟩
  · unfold profileFromRoll
    norm_num
  · simp [spawnPass, spawnLoop, spawnSlot, spawnDraw, drawTriple,
      randUniform, nextQ, profileFromRoll, zeroRec, List.range_succ]
    norm_num

/-- Witness for C1 (amended): a Running slot is untouched by the spawn
pass, and the dichotomy holds at a Killed slot. -/
theorem spawn_respawn_witness :
    ((spawnPass 1 [⟨1/2, 1/2, 1/2, 1⟩] gZero).1.getD 0 zeroRec =
      ([⟨1/2, 1/2, 1/2, 1⟩] : List ProcessRecord).getD 0 zeroRec) ∧
    ((spawnPass 1 [zeroRec] gZero).1.getD 0 zeroRec =
        ([zeroRec] : List ProcessRecord).getD 0 zeroRec ∨
      ((([zeroRec] : List ProcessRecord).getD 0 zeroRec).state = 0 ∧
        SpawnRanges ((spawnPass 1 [zeroRec] gZero).1.getD 0 zeroRec))) :=
  ⟨(spawn_respawn_spec 1 _ gZero gZero_bounded 0).1 (by norm_num),
   (spawn_respawn_spec 1 _ gZero gZero_bounded 0).2⟩

/-- C2 fails on the code: `reset(seed)` draws from the global `np.random`
stream, which gymnasium's seeding does not touch (it seeds the unused
`self.np_random`), so the passed seed does not determine the draws.  Two
instances constructed identically and reset with the same seed 42 consume
successive segments of the shared global stream and obtain different
process tables — here `[0.01, 0, 0.1, Running]` versus
`[0.05, 0, 0.1, Running]` — contradicting the claim (and the repository's
own `test_deterministic_reset`). -/
theorem reset_seed_ignored_cex :
    ((resetFn sigZero 1 (some 42)
        ⟨fun n => if n = 9 then 1 else 0, 0⟩).1.map
      EnvState.processTable = some [⟨1/100, 0, 1/10, 1⟩]) ∧
    ((resetFn sigZero 1 (some 42)
        ((resetFn sigZero 1 (some 42)
          ⟨fun n => if n = 9 then 1 else 0, 0⟩).2)).1.map
      EnvState.processTable = some [⟨1/20, 0, 1/10, 1⟩]) ∧
    ([⟨1/100, 0, 1/10, 1⟩] : List ProcessRecord) ≠
      [⟨1/20, 0, 1/10, 1⟩] := by
  refine ⟨?_, ?_, ?_⟩
  · simp [resetFn, randIntBelow, nextQ, genRecords, drawTriple, randUniform,
      shuffleList, shuffleAux, computeStats, clip, sumRam, sumCpu, sigZero,
      min_def, max_def, resetHeavy, resetLeaky, resetActive, resetIdle]
  · simp [resetFn, randIntBelow, nextQ, genRecords, drawTriple, randUniform,
      shuffleList, shuffleAux, computeStats, clip, sumRam, sumCpu, sigZero,
      min_def, max_def, resetHeavy, resetLeaky, resetActive, resetIdle]
  · simp only [ne_eq, List.cons.injEq, ProcessRecord.mk.injEq, not_and]
    intro h
    norm_num at h

end RamSim
